import Mathlib

/-!
The pizza-crd webhooks: conversion, validation and defaulting.

A shallow embedding of the three webhook handlers of
`programming-kubernetes/pizza-crd` (`pkg/webhook/conversion/convert.go`,
`pkg/webhook/conversion/serve.go`, `pkg/webhook/admission/pizzamutation.go`,
`pkg/webhook/admission/pizzavalidation.go`) together with theorems about them.

Conventions of the embedding:

* Go `string` is `String`; Go `int` is `Int`.  The only arithmetic on an `int`
  is `Quantity++` in `convert`, executed at most `len(in.Spec.Toppings)` times,
  and `j++` under the guard `j < Quantity`; neither can leave the `int` range.
* A Go slice is a `List` (`nil` and the empty slice are both `[]`).
* `runtime.Object` is the closed type `Object`: the two pizza versions, or any
  other value, of which only its `%T` type name is kept.
* A function returning `(value, error)` returns `Res`, which has a third
  constructor for a run-time panic (slice index out of range).
* Library code that is not part of the repository (the deserializer, the JSON
  encoder, the JSON differ, `fmt`'s `%q`, the topping lister) and the two
  `SchemeGroupVersion` constants of the API packages are parameters.
* `klog` calls only write log lines and are left out.
-/

set_option linter.dupNamespace false

namespace PizzaCRD

/-! ## Data model -/

/-- The part of `metav1.TypeMeta` that the handlers touch. -/
structure TypeMeta where
  Kind : String
  APIVersion : String
  deriving DecidableEq, Repr

/-- The part of `metav1.ObjectMeta` that the handlers read; the struct is only
ever copied as a whole. -/
structure ObjectMeta where
  Namespace : String
  Name : String
  deriving DecidableEq, Repr

namespace v1alpha1

/-- Type `v1alpha1.PizzaSpec`: toppings are a sequence of names. -/
structure PizzaSpec where
  Toppings : List String
  deriving DecidableEq, Repr

/-- Type `v1alpha1.PizzaStatus`; `Cost` is only copied, it is kept as the bit
pattern of the number. -/
structure PizzaStatus where
  Cost : Nat
  deriving DecidableEq, Repr

/-- Type `v1alpha1.Pizza`. -/
structure Pizza where
  TypeMeta : TypeMeta
  ObjectMeta : ObjectMeta
  Spec : PizzaSpec
  Status : PizzaStatus
  deriving DecidableEq, Repr

end v1alpha1

namespace v1beta1

/-- Type `v1beta1.PizzaTopping`: a name with a quantity. -/
structure PizzaTopping where
  Name : String
  Quantity : Int
  deriving DecidableEq, Repr

/-- Type `v1beta1.PizzaSpec`: toppings are a sequence of name/quantity entries. -/
structure PizzaSpec where
  Toppings : List PizzaTopping
  deriving DecidableEq, Repr

/-- Type `v1beta1.PizzaStatus`. -/
structure PizzaStatus where
  Cost : Nat
  deriving DecidableEq, Repr

/-- Type `v1beta1.Pizza`. -/
structure Pizza where
  TypeMeta : TypeMeta
  ObjectMeta : ObjectMeta
  Spec : PizzaSpec
  Status : PizzaStatus
  deriving DecidableEq, Repr

end v1beta1

/-- A `runtime.Object` as seen by the type switches of the handlers. -/
inductive Object where
  | alpha (p : v1alpha1.Pizza)
  | beta (p : v1beta1.Pizza)
  | other (typeName : String)
  deriving DecidableEq, Repr

/-- Outcome of a Go function returning `(value, error)`: a value with a nil
error, a non-nil error (with its `Error()` text) and no value, or a panic. -/
inductive Res (α : Type) where
  | ok (v : α)
  | err (msg : String)
  | panic
  deriving DecidableEq, Repr

/-- The two `SchemeGroupVersion.String()` values of the API packages. -/
structure Versions where
  alpha : String
  beta : String
  deriving DecidableEq, Repr

/-! ## `convert` (convert.go) -/

/-- State of the loop of lines 46-57: the map `idx` and `out.Spec.Toppings`. -/
structure LoopState where
  idx : List (String × Nat)
  out : List v1beta1.PizzaTopping
  deriving DecidableEq, Repr

/-- One iteration of the loop of lines 47-57.  `none` is the index-out-of-range
panic of `out.Spec.Toppings[i]`. -/
def stepAB (st : LoopState) (top : String) : Option LoopState :=
  match st.idx.lookup top with
  | some i =>
    match st.out[i]? with
    | some t => some { st with out := st.out.set i { t with Quantity := t.Quantity + 1 } }
    | none => none
  | none =>
    some { idx := (top, st.out.length) :: st.idx,
           out := st.out ++ [{ Name := top, Quantity := 1 }] }

/-- The loop `for _, top := range in.Spec.Toppings` of lines 47-57. -/
def loopAB : LoopState → List String → Option LoopState
  | st, [] => some st
  | st, top :: rest =>
    match stepAB st top with
    | some st' => loopAB st' rest
    | none => none

/-- The inner loop `for j := 0; j < Quantity; j++` of lines 77-79, started at
counter `j`. -/
def appendCopies (name : String) (q : Int) (j : Int) (out : List String) : List String :=
  if j < q then appendCopies name q (j + 1) (out ++ [name]) else out
termination_by (q - j).toNat
decreasing_by omega

/-- The loop `for i := range in.Spec.Toppings` of lines 76-80. -/
def loopBA : List String → List v1beta1.PizzaTopping → List String
  | out, [] => out
  | out, t :: rest => loopBA (appendCopies t.Name t.Quantity 0 out) rest

/-- Function `convert` of convert.go. -/
def convert (gv : Versions) (obj : Object) (apiVersion : String) : Res Object :=
  match obj with
  | .alpha p =>
    if apiVersion ≠ gv.beta then
      .err ("cannot convert " ++ gv.alpha ++ " to " ++ apiVersion)
    else
      match loopAB { idx := [], out := [] } p.Spec.Toppings with
      | some st =>
        .ok (.beta {
          TypeMeta := { p.TypeMeta with APIVersion := apiVersion }
          ObjectMeta := p.ObjectMeta
          Spec := { Toppings := st.out }
          Status := { Cost := p.Status.Cost } })
      | none => .panic
  | .beta p =>
    if apiVersion ≠ gv.alpha then
      .err ("cannot convert " ++ gv.beta ++ " to " ++ apiVersion)
    else
      .ok (.alpha {
        TypeMeta := { p.TypeMeta with APIVersion := apiVersion }
        ObjectMeta := p.ObjectMeta
        Spec := { Toppings := loopBA [] p.Spec.Toppings }
        Status := { Cost := p.Status.Cost } })
  | .other typeName => .err ("unknown type " ++ typeName)

/-! ## Review envelopes -/

/-- A Go `[]byte`. -/
abbrev Bytes := List UInt8

/-- Type `runtime.RawExtension`: raw bytes and, when already decoded, the object. -/
structure RawExtension where
  Raw : Bytes
  Object : Option Object
  deriving DecidableEq, Repr

/-- The fields of `metav1.Status` that the handlers set. -/
structure Status where
  Status : String
  Message : String
  deriving DecidableEq, Repr

/-- Constant `metav1.StatusSuccess`. -/
def StatusSuccess : String := "Success"

/-- Constant `metav1.StatusFailure`. -/
def StatusFailure : String := "Failure"

/-- Result of decoding a request body with `Decode(body, &reviewGVK, &Review{})`:
a review of the expected Go type, or an object of some other type; both come
with the decoded GroupVersionKind. -/
inductive DecodedBody (α : Type) where
  | review (r : α) (gvk : String)
  | other (gvk : String)
  deriving DecidableEq, Repr

/-- What a handler does with the `http.ResponseWriter`: it reports an internal
error (`responsewriters.InternalError`), writes the review
(`responsewriters.WriteObject` with status 200), or panics. -/
inductive Written (α : Type) where
  | internalError (msg : String)
  | object (review : α) (gvk : String)
  | panic
  deriving DecidableEq, Repr

/-- The block `if x.Object == nil { x.Object, _, err = Decode(x.Raw, nil, nil) }`
shared by the three handlers. -/
def decodeIfNil (decodeObject : Bytes → Except String Object) (x : RawExtension) :
    Except String Object :=
  match x.Object with
  | some o => .ok o
  | none => decodeObject x.Raw

/-! ## `Serve` (serve.go) -/

/-- Type `apiextensionsv1beta1.ConversionRequest`. -/
structure ConversionRequest where
  UID : String
  DesiredAPIVersion : String
  Objects : List RawExtension
  deriving DecidableEq, Repr

/-- Type `apiextensionsv1beta1.ConversionResponse`. -/
structure ConversionResponse where
  UID : String
  ConvertedObjects : List RawExtension
  Result : Status
  deriving DecidableEq, Repr

/-- Type `apiextensionsv1beta1.ConversionReview`. -/
structure ConversionReview where
  Request : Option ConversionRequest
  Response : Option ConversionResponse
  deriving DecidableEq, Repr

/-- The loop of lines 77-99 of serve.go over `review.Request.Objects`, on the
state `(review.Response.Result, objs)`; returning without recursing is `break`,
`none` is a panic inside `convert`. -/
def convertObjects (gv : Versions) (decodeObject : Bytes → Except String Object)
    (desiredAPIVersion : String) :
    Status → List Object → List RawExtension → Option (Status × List Object)
  | result, objs, [] => some (result, objs)
  | result, objs, x :: rest =>
    match decodeIfNil decodeObject x with
    | .error e => some ({ Message := e, Status := StatusFailure }, objs)
    | .ok o =>
      match convert gv o desiredAPIVersion with
      | .err e => some ({ Message := e, Status := StatusFailure }, objs)
      | .panic => none
      | .ok obj => convertObjects gv decodeObject desiredAPIVersion result (objs ++ [obj]) rest

/-- Function `Serve` of serve.go.  `body` is the result of `ioutil.ReadAll`. -/
def Serve (gv : Versions)
    (decodeBody : Bytes → Except String (DecodedBody ConversionReview))
    (decodeObject : Bytes → Except String Object)
    (body : Except String Bytes) : Written ConversionReview :=
  match body with
  | .error e => .internalError ("failed to read body: " ++ e)
  | .ok body =>
    match decodeBody body with
    | .error e => .internalError ("failed to decode body: " ++ e)
    | .ok (.other gvk) => .internalError ("unexpected GroupVersionKind: " ++ gvk)
    | .ok (.review review gvk) =>
      match review.Request with
      | none => .internalError "unexpected nil request"
      | some request =>
        let response : ConversionResponse :=
          { UID := request.UID, ConvertedObjects := [],
            Result := { Status := StatusSuccess, Message := "" } }
        match convertObjects gv decodeObject request.DesiredAPIVersion
            response.Result [] request.Objects with
        | none => .panic
        | some (result, objs) =>
          let response := { response with Result := result }
          let response :=
            if response.Result.Status = StatusSuccess then
              { response with
                ConvertedObjects := response.ConvertedObjects ++
                  objs.map (fun obj => { Raw := [], Object := some obj }) }
            else response
          .object { review with Response := some response } gvk

/-! ## Admission reviews -/

/-- Type `admissionv1beta1.AdmissionRequest`, the fields the handlers use. -/
structure AdmissionRequest where
  UID : String
  Namespace : String
  Name : String
  Object : RawExtension
  deriving DecidableEq, Repr

/-- Type `admissionv1beta1.AdmissionResponse`.  `Patch` is a byte slice (empty
when absent), `PatchType` and `Result` are pointers. -/
structure AdmissionResponse where
  UID : String
  Allowed : Bool
  Result : Option Status
  Patch : Bytes
  PatchType : Option String
  deriving DecidableEq, Repr

/-- Type `admissionv1beta1.AdmissionReview`. -/
structure AdmissionReview where
  Request : Option AdmissionRequest
  Response : Option AdmissionResponse
  deriving DecidableEq, Repr

/-- The response `&admissionv1beta1.AdmissionResponse{UID: review.Request.UID}`. -/
def AdmissionResponse.new (uid : String) : AdmissionResponse :=
  { UID := uid, Allowed := false, Result := none, Patch := [], PatchType := none }

/-! ## `ServePizzaValidation` (pizzavalidation.go) -/

/-- Result of `toppingLister.Get(name)` as the handler distinguishes it: a nil
error, an error with `errors.IsNotFound`, or any other error. -/
inductive LookupResult where
  | found
  | notFound
  | otherError (msg : String)
  deriving DecidableEq, Repr

/-- How a loop over the toppings ends. -/
inductive Verdict where
  | internalError (msg : String)
  | denied (message : String)
  | allowed
  deriving DecidableEq, Repr

/-- How `fmt` renders a `v1beta1.PizzaTopping` operand under the verb `%q`: the
fields in braces, separated by a blank, each under `%q` (`fmtQ` for the string,
`fmtQc` for the integer). -/
def fmtQTopping (fmtQ : String → String) (fmtQc : Int → String) (t : v1beta1.PizzaTopping) :
    String :=
  "\x7b" ++ fmtQ t.Name ++ " " ++ fmtQc t.Quantity ++ "\x7d"

/-- The loop of lines 101-113 over the toppings of a `v1alpha1.Pizza`.  The
second component is the sequence of names passed to `toppingLister.Get` so far. -/
def validateAlpha (get : String → LookupResult) (fmtQ : String → String) :
    List String → List String → Verdict × List String
  | [], lookups => (.allowed, lookups)
  | topping :: rest, lookups =>
    match get topping with
    | .otherError e =>
      (.internalError ("failed to lookup topping " ++ fmtQ topping ++ ": " ++ e),
        lookups ++ [topping])
    | .notFound =>
      (.denied ("topping " ++ fmtQ topping ++ " not known"), lookups ++ [topping])
    | .found => validateAlpha get fmtQ rest (lookups ++ [topping])

/-- The loop of lines 116-128 over the toppings of a `v1beta1.Pizza`; the
lookup uses `topping.Name`, the messages format the whole `topping`. -/
def validateBeta (get : String → LookupResult) (fmtQ : String → String) (fmtQc : Int → String) :
    List v1beta1.PizzaTopping → List String → Verdict × List String
  | [], lookups => (.allowed, lookups)
  | topping :: rest, lookups =>
    match get topping.Name with
    | .otherError e =>
      (.internalError ("failed to lookup topping " ++ fmtQTopping fmtQ fmtQc topping ++ ": " ++ e),
        lookups ++ [topping.Name])
    | .notFound =>
      (.denied ("topping " ++ fmtQTopping fmtQ fmtQc topping ++ " not known"),
        lookups ++ [topping.Name])
    | .found => validateBeta get fmtQ fmtQc rest (lookups ++ [topping.Name])

/-- The handler returned by `ServePizzaValidation`.  `hasSynced` is
`toppingInformer.HasSynced()`, `get` is `toppingLister.Get`.  The second
component is the sequence of names looked up in the catalog. -/
def ServePizzaValidation (hasSynced : Bool) (get : String → LookupResult)
    (fmtQ : String → String) (fmtQc : Int → String)
    (decodeBody : Bytes → Except String (DecodedBody AdmissionReview))
    (decodeObject : Bytes → Except String Object)
    (body : Except String Bytes) : Written AdmissionReview × List String :=
  if !hasSynced then (.internalError "informers not ready", [])
  else
    match body with
    | .error e => (.internalError ("failed to read body: " ++ e), [])
    | .ok body =>
      match decodeBody body with
      | .error e => (.internalError ("failed to decode body: " ++ e), [])
      | .ok (.other gvk) => (.internalError ("unexpected GroupVersionKind: " ++ gvk), [])
      | .ok (.review review gvk) =>
        match review.Request with
        | none => (.internalError "unexpected nil request", [])
        | some request =>
          let response := AdmissionResponse.new request.UID
          match decodeIfNil decodeObject request.Object with
          | .error e =>
            (.object { review with Response := some { response with
                Result := some { Message := e, Status := StatusFailure } } } gvk, [])
          | .ok obj =>
            let finish (v : Verdict × List String) : Written AdmissionReview × List String :=
              match v with
              | (.internalError msg, lookups) => (.internalError msg, lookups)
              | (.denied message, lookups) =>
                (.object { review with Response := some { response with
                    Result := some { Message := message, Status := StatusFailure } } } gvk,
                  lookups)
              | (.allowed, lookups) =>
                (.object { review with Response := some { response with Allowed := true } } gvk,
                  lookups)
            match obj with
            | .alpha pizza => finish (validateAlpha get fmtQ pizza.Spec.Toppings [])
            | .beta pizza => finish (validateBeta get fmtQ fmtQc pizza.Spec.Toppings [])
            | .other typeName =>
              (.object { review with Response := some { response with
                  Result := some { Message := "unexpected type " ++ typeName,
                                   Status := StatusFailure } } } gvk, [])

/-! ## `ServePizzaAdmit` (pizzamutation.go) -/

/-- Type `jsonpatch.Operation`; the value is kept as its JSON text. -/
structure Operation where
  Operation : String
  Path : String
  Value : String
  deriving DecidableEq, Repr

/-- Constant `admissionv1beta1.PatchTypeJSONPatch`. -/
def PatchTypeJSONPatch : String := "JSONPatch"

/-- The defaulting of lines 82-84: an empty toppings list becomes the three
default names. -/
def v1alpha1.Pizza.defaultToppings (pizza : v1alpha1.Pizza) : v1alpha1.Pizza :=
  if pizza.Spec.Toppings.length = 0 then
    { pizza with Spec := { Toppings := ["tomato", "mozzarella", "salami"] } }
  else pizza

/-- The defaulting of lines 93-99: an empty toppings list becomes the three
default entries. -/
def v1beta1.Pizza.defaultToppings (pizza : v1beta1.Pizza) : v1beta1.Pizza :=
  if pizza.Spec.Toppings.length = 0 then
    { pizza with Spec := { Toppings := [⟨"tomato", 1⟩, ⟨"mozzarella", 1⟩, ⟨"salami", 1⟩] } }
  else pizza

/-- Function `ServePizzaAdmit` of pizzamutation.go.  `marshal` is `json.Marshal`
on a pizza, `createPatch` is `jsonpatch.CreatePatch`, `marshalOps` is
`json.Marshal` on the operations. -/
def ServePizzaAdmit
    (decodeBody : Bytes → Except String (DecodedBody AdmissionReview))
    (decodeObject : Bytes → Except String Object)
    (marshal : Object → Except String Bytes)
    (createPatch : Bytes → Bytes → Except String (List Operation))
    (marshalOps : List Operation → Except String Bytes)
    (body : Except String Bytes) : Written AdmissionReview :=
  match body with
  | .error e => .internalError ("failed to read body: " ++ e)
  | .ok body =>
    match decodeBody body with
    | .error e => .internalError ("failed to decode body: " ++ e)
    | .ok (.other gvk) => .internalError ("unexpected GroupVersionKind: " ++ gvk)
    | .ok (.review review gvk) =>
      match review.Request with
      | none => .internalError "unexpected nil request"
      | some request =>
        let response := AdmissionResponse.new request.UID
        match decodeIfNil decodeObject request.Object with
        | .error e =>
          .object { review with Response := some { response with
              Result := some { Message := e, Status := StatusFailure } } } gvk
        | .ok obj =>
          let orig := request.Object.Raw
          let diff (bs : Bytes) : Written AdmissionReview :=
            match createPatch orig bs with
            | .error e => .internalError ("unexpected diff error: " ++ e)
            | .ok ops =>
              match marshalOps ops with
              | .error e => .internalError ("unexpected patch encoding error: " ++ e)
              | .ok patch =>
                .object { review with Response := some { response with
                    Patch := patch, PatchType := some PatchTypeJSONPatch,
                    Allowed := true } } gvk
          match obj with
          | .alpha pizza =>
            match marshal (.alpha pizza.defaultToppings) with
            | .error e => .internalError ("unexpected encoding error: " ++ e)
            | .ok bs => diff bs
          | .beta pizza =>
            match marshal (.beta pizza.defaultToppings) with
            | .error e => .internalError ("unexpected encoding error: " ++ e)
            | .ok bs => diff bs
          | .other typeName =>
            .object { review with Response := some { response with
                Result := some { Message := "unexpected type " ++ typeName,
                                 Status := StatusFailure } } } gvk

/-! ## Specification-side vocabulary for `convert` -/

/-- Names of a version-B topping list. -/
def names (l : List v1beta1.PizzaTopping) : List String := l.map (·.Name)

/-- Add one to the quantity of an entry named `x`. -/
def bump (x : String) (t : v1beta1.PizzaTopping) : v1beta1.PizzaTopping :=
  if t.Name = x then { t with Quantity := t.Quantity + 1 } else t

/-- One loop iteration seen on the output list alone, without the index map. -/
def countStep (out : List v1beta1.PizzaTopping) (x : String) : List v1beta1.PizzaTopping :=
  if x ∈ names out then out.map (bump x) else out ++ [{ Name := x, Quantity := 1 }]

/-- Invariant linking the map `idx` to the output list. -/
structure LoopInv (st : LoopState) : Prop where
  idx_some : ∀ k i, st.idx.lookup k = some i → (names st.out)[i]? = some k
  idx_none : ∀ k, st.idx.lookup k = none → k ∉ names st.out
  nodup : (names st.out).Nodup

/-- What the counting fold has produced after reading the prefix `P`. -/
structure CountInv (P : List String) (out : List v1beta1.PizzaTopping) : Prop where
  nodup : (names out).Nodup
  mem : ∀ k, k ∈ names out ↔ k ∈ P
  qty : ∀ t ∈ out, t.Quantity = (P.count t.Name : Int)
  order : (names out).Pairwise (fun a b => P.indexOf a < P.indexOf b)

/-- The name of every entry repeated `Quantity` times (no copy when the
quantity is zero or negative), concatenated in order. -/
def expand (l : List v1beta1.PizzaTopping) : List String :=
  l.flatMap (fun t => List.replicate t.Quantity.toNat t.Name)

/-! ## Specification-side vocabulary for the handlers -/

/-- What the conversion handler's loop body makes of one object of the batch:
decode it when it is not decoded yet, then convert it; the error is the decode
error or the conversion error. -/
def objectOutcome (gv : Versions) (decodeObject : Bytes → Except String Object)
    (desiredAPIVersion : String) (x : RawExtension) : Res Object :=
  match decodeIfNil decodeObject x with
  | .error e => .err e
  | .ok o => convert gv o desiredAPIVersion

/-- A response carries no patch when both patch fields are unset. -/
def AdmissionResponse.carriesNoPatch (r : AdmissionResponse) : Prop :=
  r.Patch = [] ∧ r.PatchType = none

/-! ## Sample inputs -/

/-- Sample version strings. -/
def sampleVersions : Versions := { alpha := "g/v1alpha1", beta := "g/v1beta1" }

/-- A sample `v1alpha1` pizza with the given toppings. -/
def sampleAlpha (toppings : List String) : v1alpha1.Pizza :=
  { TypeMeta := { Kind := "Pizza", APIVersion := "g/v1alpha1" }
    ObjectMeta := { Namespace := "default", Name := "margherita" }
    Spec := { Toppings := toppings }
    Status := { Cost := 0 } }

/-- A sample `v1beta1` pizza with the given toppings. -/
def sampleBeta (toppings : List v1beta1.PizzaTopping) : v1beta1.Pizza :=
  { TypeMeta := { Kind := "Pizza", APIVersion := "g/v1beta1" }
    ObjectMeta := { Namespace := "default", Name := "margherita" }
    Spec := { Toppings := toppings }
    Status := { Cost := 0 } }

/-- A sample batch: a `v1alpha1` pizza, an object of another type, a `v1alpha1`
pizza; the target is the sample `v1beta1` version. -/
def sampleConversionRequest : ConversionRequest :=
  { UID := "uid-1"
    DesiredAPIVersion := "g/v1beta1"
    Objects := [
      { Raw := [], Object := some (.alpha (sampleAlpha ["tomato", "tomato"])) },
      { Raw := [], Object := some (.other "*v1.Pod") },
      { Raw := [], Object := some (.alpha (sampleAlpha ["salami"])) }] }

/-- A sample admission request carrying the given decoded object. -/
def sampleAdmissionRequest (obj : Object) : AdmissionRequest :=
  { UID := "uid-2", Namespace := "default", Name := "margherita"
    Object := { Raw := [123, 125], Object := some obj } }

/-- A sample catalog that holds only "pepperoni". -/
def sampleCatalog (name : String) : LookupResult :=
  if name = "pepperoni" then .found else .notFound

/-- A sample `%q` for strings: the text between double quotes. -/
def sampleQuote (s : String) : String := "\"" ++ s ++ "\""

/-- A sample `%q` for integers. -/
def sampleQuoteInt (_ : Int) : String := "?"

/-- A sample body decoder for admission reviews: every body is a review with
the given request. -/
def sampleDecodeBody (request : AdmissionRequest) (_ : Bytes) :
    Except String (DecodedBody AdmissionReview) :=
  .ok (.review { Request := some request, Response := none }
    "admission.k8s.io/v1beta1, Kind=AdmissionReview")

/-- A sample encoder that accepts only the sample `v1beta1` pizza carrying the
three default toppings at quantity 1. -/
def sampleMarshalDefaulted (obj : Object) : Except String Bytes :=
  if obj = .beta (sampleBeta [⟨"tomato", 1⟩, ⟨"mozzarella", 1⟩, ⟨"salami", 1⟩]) then
    .ok [123, 125]
  else .error "not the defaulted pizza"

/-- A sample operation list: one operation adding the toppings. -/
def sampleOps : List Operation :=
  [{ Operation := "add", Path := "/spec/toppings", Value := "[]" }]

/-! # Theorems -/

/-! ## The A→B loop computes the counting fold -/

theorem names_map_bump (x : String) (out : List v1beta1.PizzaTopping) :
    names (out.map (bump x)) = names out := by
  unfold names
  rw [List.map_map]
  apply List.map_congr_left
  intro t _
  simp only [Function.comp, bump]
  split <;> rfl

theorem map_bump_of_not_mem (x : String) (out : List v1beta1.PizzaTopping)
    (h : x ∉ names out) : out.map (bump x) = out := by
  induction out with
  | nil => rfl
  | cons t ts ih =>
    simp only [names, List.map_cons, List.mem_cons, not_or] at h
    have h2 : x ∉ names ts := h.2
    simp only [List.map_cons, ih h2]
    have : bump x t = t := by
      simp only [bump]
      rw [if_neg (fun e => h.1 e.symm)]
    rw [this]

theorem set_eq_map_bump (out : List v1beta1.PizzaTopping) (i : Nat) (t : v1beta1.PizzaTopping)
    (hnd : (names out).Nodup) (hi : out[i]? = some t) :
    out.set i { t with Quantity := t.Quantity + 1 } = out.map (bump t.Name) := by
  induction out generalizing i with
  | nil => simp at hi
  | cons u us ih =>
    simp only [names, List.map_cons, List.nodup_cons] at hnd
    cases i with
    | zero =>
      simp only [List.getElem?_cons_zero, Option.some.injEq] at hi
      subst hi
      simp only [List.set_cons_zero, List.map_cons]
      rw [map_bump_of_not_mem _ _ hnd.1]
      simp [bump]
    | succ j =>
      simp only [List.getElem?_cons_succ] at hi
      simp only [List.set_cons_succ, List.map_cons]
      rw [ih j hnd.2 hi]
      have hmem : t.Name ∈ names us :=
        List.mem_map_of_mem _ (List.getElem?_mem hi)
      have hne : ¬ u.Name = t.Name := fun e => hnd.1 (e ▸ hmem)
      simp [bump, hne]

theorem stepAB_spec (st : LoopState) (x : String) (inv : LoopInv st) :
    ∃ st', stepAB st x = some st' ∧ st'.out = countStep st.out x ∧ LoopInv st' := by
  cases hl : st.idx.lookup x with
  | some i =>
    have hn := inv.idx_some x i hl
    simp only [names, List.getElem?_map] at hn
    cases ho : st.out[i]? with
    | none => simp [ho] at hn
    | some t =>
      simp only [ho, Option.map_some', Option.some.injEq] at hn
      subst hn
      have hset := set_eq_map_bump st.out i t inv.nodup ho
      have hmem : t.Name ∈ names st.out := List.mem_map_of_mem _ (List.getElem?_mem ho)
      refine ⟨{ st with out := st.out.set i { t with Quantity := t.Quantity + 1 } },
        by simp only [stepAB, hl, ho], ?_, ?_⟩
      · simp only [countStep, if_pos hmem, hset]
      · have hnames : names (st.out.set i { t with Quantity := t.Quantity + 1 }) = names st.out := by
          rw [hset, names_map_bump]
        exact ⟨by simpa only [hnames] using inv.idx_some,
               by simpa only [hnames] using inv.idx_none,
               by simpa only [hnames] using inv.nodup⟩
  | none =>
    have hnm := inv.idx_none x hl
    refine ⟨{ idx := (x, st.out.length) :: st.idx,
              out := st.out ++ [{ Name := x, Quantity := 1 }] },
      by simp only [stepAB, hl], ?_, ?_⟩
    · simp only [countStep, if_neg hnm]
    · have hnames : names (st.out ++ [{ Name := x, Quantity := 1 }]) = names st.out ++ [x] := by
        simp [names]
      have hlen : st.out.length = (names st.out).length := by simp [names]
      refine ⟨?_, ?_, ?_⟩
      · intro k i hk
        simp only [hnames]
        simp only [List.lookup_cons] at hk
        by_cases hkx : k = x
        · subst hkx
          simp only [beq_self_eq_true, Option.some.injEq] at hk
          subst hk
          rw [hlen]
          simp
        · have hb : (k == x) = false := by simpa using hkx
          simp only [hb] at hk
          have := inv.idx_some k i hk
          have hlt : i < (names st.out).length := by
            by_contra hge
            rw [List.getElem?_eq_none (by omega)] at this
            cases this
          rw [List.getElem?_append_left hlt]
          exact this
      · intro k hk
        simp only [hnames]
        simp only [List.lookup_cons] at hk
        by_cases hkx : k = x
        · subst hkx
          simp at hk
        · have hb : (k == x) = false := by simpa using hkx
          simp only [hb] at hk
          have := inv.idx_none k hk
          simp [this, hkx]
      · simp only [hnames]
        rw [List.nodup_append]
        refine ⟨inv.nodup, List.nodup_singleton x, ?_⟩
        intro a ha hax
        simp only [List.mem_singleton] at hax
        exact hnm (hax ▸ ha)

theorem loopAB_spec (S : List String) (st : LoopState) (inv : LoopInv st) :
    ∃ st', loopAB st S = some st' ∧ st'.out = S.foldl countStep st.out ∧ LoopInv st' := by
  induction S generalizing st with
  | nil => exact ⟨st, rfl, rfl, inv⟩
  | cons x xs ih =>
    obtain ⟨st1, h1, hout, inv1⟩ := stepAB_spec st x inv
    obtain ⟨st2, h2, hout2, inv2⟩ := ih st1 inv1
    refine ⟨st2, ?_, ?_, inv2⟩
    · simp only [loopAB, h1, h2]
    · simp only [List.foldl_cons, hout2, hout]

theorem loopInv_init : LoopInv { idx := [], out := [] } :=
  ⟨by intro k i h; simp at h, by intro k _; simp [names], by simp [names]⟩
theorem countStep_inv (P : List String) (out : List v1beta1.PizzaTopping) (x : String)
    (h : CountInv P out) : CountInv (P ++ [x]) (countStep out x) := by
  have hidx : ∀ a, a ∈ names out → (P ++ [x]).indexOf a = P.indexOf a := fun a ha =>
    List.indexOf_append_of_mem ((h.mem a).1 ha)
  have hord : (names out).Pairwise (fun a b => (P ++ [x]).indexOf a < (P ++ [x]).indexOf b) := by
    refine List.Pairwise.imp_of_mem ?_ h.order
    intro a b ha hb hab
    rw [hidx a ha, hidx b hb]
    exact hab
  by_cases hx : x ∈ names out
  · simp only [countStep, if_pos hx]
    refine ⟨?_, ?_, ?_, ?_⟩
    · rw [names_map_bump]; exact h.nodup
    · intro k
      rw [names_map_bump, h.mem, List.mem_append, List.mem_singleton]
      constructor
      · exact Or.inl
      · rintro (hk | hk)
        · exact hk
        · exact hk ▸ (h.mem x).1 hx
    · intro t' ht'
      obtain ⟨t, ht, rfl⟩ := List.mem_map.1 ht'
      have hq := h.qty t ht
      by_cases hn : t.Name = x
      · simp only [bump, if_pos hn, List.count_append, hq]
        simp [hn]
      · simp only [bump, if_neg hn, List.count_append, hq]
        have : List.count t.Name [x] = 0 := by
          apply List.count_eq_zero_of_not_mem
          simpa using hn
        simp [this]
    · rw [names_map_bump]; exact hord
  · simp only [countStep, if_neg hx]
    have hxP : x ∉ P := fun hp => hx ((h.mem x).2 hp)
    have hnames : names (out ++ [{ Name := x, Quantity := 1 }]) = names out ++ [x] := by
      simp [names]
    refine ⟨?_, ?_, ?_, ?_⟩
    · rw [hnames, List.nodup_append]
      refine ⟨h.nodup, List.nodup_singleton x, ?_⟩
      intro a ha hax
      simp only [List.mem_singleton] at hax
      exact hx (hax ▸ ha)
    · intro k
      rw [hnames, List.mem_append, List.mem_append, h.mem]
    · intro t ht
      rcases List.mem_append.1 ht with ht | ht
      · have hq := h.qty t ht
        have hne : t.Name ≠ x := fun e => hx (e ▸ List.mem_map_of_mem _ ht)
        have : List.count t.Name [x] = 0 := by
          apply List.count_eq_zero_of_not_mem
          simpa using hne
        simp [List.count_append, hq, this]
      · simp only [List.mem_singleton] at ht
        subst ht
        simp [List.count_append, List.count_eq_zero_of_not_mem hxP]
    · rw [hnames, List.pairwise_append]
      refine ⟨hord, List.pairwise_singleton _ _, ?_⟩
      intro a ha b hb
      simp only [List.mem_singleton] at hb
      subst hb
      rw [hidx a ha, List.indexOf_append_of_not_mem hxP]
      have : P.indexOf a < P.length := List.indexOf_lt_length.2 ((h.mem a).1 ha)
      omega

theorem countInv_foldl (S : List String) : CountInv S (S.foldl countStep []) := by
  induction S using List.reverseRecOn with
  | nil =>
    exact ⟨by simp [names], by simp [names], by simp, by simp [names]⟩
  | append_singleton P x ih =>
    rw [List.foldl_append]
    exact countStep_inv P _ x ih

/-! ## The B→A loops in closed form -/

theorem appendCopies_eq (name : String) (q : Int) (n : Nat) :
    ∀ (j : Int) (out : List String), (q - j).toNat = n →
      appendCopies name q j out = out ++ List.replicate n name := by
  induction n with
  | zero =>
    intro j out h
    rw [appendCopies, if_neg (by omega)]
    simp
  | succ m ih =>
    intro j out h
    rw [appendCopies, if_pos (by omega), ih (j + 1) (out ++ [name]) (by omega)]
    simp [List.replicate_succ]

theorem loopBA_eq (l : List v1beta1.PizzaTopping) (out : List String) :
    loopBA out l = out ++ expand l := by
  induction l generalizing out with
  | nil => simp [loopBA, expand]
  | cons t ts ih =>
    rw [loopBA, ih, appendCopies_eq t.Name t.Quantity t.Quantity.toNat 0 out (by simp)]
    simp [expand, List.flatMap_cons]

theorem count_expand (out : List v1beta1.PizzaTopping) (c : String → Nat)
    (hnd : (names out).Nodup) (hq : ∀ t ∈ out, t.Quantity = (c t.Name : Int)) (n : String) :
    (expand out).count n = if n ∈ names out then c n else 0 := by
  induction out with
  | nil => simp [expand, names]
  | cons t ts ih =>
    simp only [names, List.map_cons, List.nodup_cons] at hnd
    have ih' := ih hnd.2 (fun u hu => hq u (List.mem_cons_of_mem _ hu))
    have hexp : expand (t :: ts) = List.replicate (c t.Name) t.Name ++ expand ts := by
      simp [expand, List.flatMap_cons, hq t (List.mem_cons_self _ _)]
    rw [hexp, List.count_append, ih', List.count_replicate]
    by_cases hn : t.Name = n
    · subst hn
      have h1 : t.Name ∉ names ts := hnd.1
      simp [names] at h1 ⊢
      intro u hu hne
      exact absurd hne (h1 u hu)
    · have hn' : ¬ n = t.Name := fun e => hn e.symm
      simp [names, hn, hn']

theorem foldl_countStep_bumps (acc : List v1beta1.PizzaTopping) (x : String) (k : Int) (m : Nat)
    (hx : x ∉ names acc) :
    (List.replicate m x).foldl countStep (acc ++ [{ Name := x, Quantity := k }])
      = acc ++ [{ Name := x, Quantity := k + m }] := by
  induction m generalizing k with
  | zero => simp
  | succ m ih =>
    have hmem : x ∈ names (acc ++ [{ Name := x, Quantity := k }]) := by simp [names]
    rw [List.replicate_succ, List.foldl_cons]
    have hstep : countStep (acc ++ [{ Name := x, Quantity := k }]) x
        = acc ++ [{ Name := x, Quantity := k + 1 }] := by
      simp only [countStep, if_pos hmem, List.map_append, map_bump_of_not_mem x acc hx]
      simp [bump]
    rw [hstep, ih (k + 1)]
    simp only [Nat.cast_add, Nat.cast_one]
    congr 3
    omega

theorem foldl_countStep_replicate (acc : List v1beta1.PizzaTopping) (t : v1beta1.PizzaTopping)
    (hx : t.Name ∉ names acc) (hq : 1 ≤ t.Quantity) :
    (List.replicate t.Quantity.toNat t.Name).foldl countStep acc = acc ++ [t] := by
  obtain ⟨m, hm⟩ : ∃ m : Nat, t.Quantity.toNat = m + 1 := ⟨t.Quantity.toNat - 1, by omega⟩
  rw [hm, List.replicate_succ, List.foldl_cons]
  have hstep : countStep acc t.Name = acc ++ [{ Name := t.Name, Quantity := 1 }] := by
    simp only [countStep, if_neg hx]
  rw [hstep, foldl_countStep_bumps acc t.Name 1 m hx]
  have : (1 : Int) + m = t.Quantity := by omega
  rw [this]

theorem foldl_countStep_expand (l acc : List v1beta1.PizzaTopping)
    (hnd : (names (acc ++ l)).Nodup) (hq : ∀ t ∈ l, 1 ≤ t.Quantity) :
    (expand l).foldl countStep acc = acc ++ l := by
  induction l generalizing acc with
  | nil => simp [expand]
  | cons t ts ih =>
    have hexp : expand (t :: ts) = List.replicate t.Quantity.toNat t.Name ++ expand ts := by
      simp [expand, List.flatMap_cons]
    have hsplit : acc ++ t :: ts = (acc ++ [t]) ++ ts := by simp
    have hx : t.Name ∉ names acc := by
      intro hmem
      simp only [names, List.map_append, List.map_cons] at hnd
      rw [List.nodup_append] at hnd
      exact hnd.2.2 hmem (List.mem_cons_self _ _)
    rw [hexp, List.foldl_append,
      foldl_countStep_replicate acc t hx (hq t (List.mem_cons_self _ _)), hsplit]
    exact ih (acc ++ [t]) (hsplit ▸ hnd) (fun u hu => hq u (List.mem_cons_of_mem _ hu))

/-! ## `convert` in closed form -/

theorem loopAB_eq (S : List String) :
    ∃ st, loopAB { idx := [], out := [] } S = some st ∧ st.out = S.foldl countStep [] := by
  obtain ⟨st, h, hout, _⟩ := loopAB_spec S { idx := [], out := [] } loopInv_init
  exact ⟨st, h, hout⟩

theorem convert_alpha_eq (gv : Versions) (p : v1alpha1.Pizza) :
    convert gv (.alpha p) gv.beta = .ok (.beta {
      TypeMeta := { p.TypeMeta with APIVersion := gv.beta }
      ObjectMeta := p.ObjectMeta
      Spec := { Toppings := p.Spec.Toppings.foldl countStep [] }
      Status := { Cost := p.Status.Cost } }) := by
  obtain ⟨st, h, hout⟩ := loopAB_eq p.Spec.Toppings
  simp only [convert, ne_eq, not_true_eq_false, if_false, h, hout]

theorem convert_beta_eq (gv : Versions) (p : v1beta1.Pizza) :
    convert gv (.beta p) gv.alpha = .ok (.alpha {
      TypeMeta := { p.TypeMeta with APIVersion := gv.alpha }
      ObjectMeta := p.ObjectMeta
      Spec := { Toppings := expand p.Spec.Toppings }
      Status := { Cost := p.Status.Cost } }) := by
  simp only [convert, ne_eq, not_true_eq_false, if_false, loopBA_eq, List.nil_append]

theorem convert_ne_panic (gv : Versions) (obj : Object) (apiVersion : String) :
    convert gv obj apiVersion ≠ .panic := by
  cases obj with
  | alpha p =>
    by_cases h : apiVersion = gv.beta
    · subst h
      rw [convert_alpha_eq]
      exact fun h => Res.noConfusion h
    · simp [convert, h]
  | beta p =>
    by_cases h : apiVersion = gv.alpha
    · subst h
      rw [convert_beta_eq]
      exact fun h => Res.noConfusion h
    · simp [convert, h]
  | other T => simp [convert]

theorem unknown_ne_cannot (T a b : String) :
    "unknown type " ++ T ≠ "cannot convert " ++ a ++ " to " ++ b := by
  intro h
  have h2 := congrArg (fun s => s.data.head?) h
  simp [String.data_append] at h2

theorem count_expand_foldl (S : List String) (n : String) :
    (expand (S.foldl countStep [])).count n = S.count n := by
  have inv := countInv_foldl S
  rw [count_expand _ (fun k => S.count k) inv.nodup inv.qty n]
  by_cases h : n ∈ S
  · rw [if_pos ((inv.mem n).2 h)]
  · rw [if_neg (fun hm => h ((inv.mem n).1 hm)), List.count_eq_zero_of_not_mem h]

/-! ## Claims about `convert` -/

/-- C1: a `v1alpha1` pizza converted by `convert` to `v1beta1` and back to
`v1alpha1` succeeds both times, and the resulting topping sequence is a
permutation of the original one: every name occurs in it as often as in the
original. -/
theorem convert_alpha_roundtrip_perm (gv : Versions) (p : v1alpha1.Pizza) :
    ∃ pb pa, convert gv (.alpha p) gv.beta = .ok (.beta pb) ∧
      convert gv (.beta pb) gv.alpha = .ok (.alpha pa) ∧
      pa.Spec.Toppings.Perm p.Spec.Toppings ∧
      ∀ n, pa.Spec.Toppings.count n = p.Spec.Toppings.count n := by
  refine ⟨_, _, convert_alpha_eq gv p, convert_beta_eq gv _, ?_, ?_⟩
  · exact List.perm_iff_count.2 (count_expand_foldl p.Spec.Toppings)
  · exact count_expand_foldl p.Spec.Toppings

/-- C2: converting a `v1alpha1` pizza with topping sequence `S` to `v1beta1`
succeeds; the names of the output entries are pairwise distinct, they are
exactly the names of `S`, they stand in the order of their first occurrence in
`S`, and every entry's quantity is the number of occurrences of its name in `S`,
hence at least 1.  The sequence tomato, salami, tomato, mozzarella, salami,
salami becomes (tomato,2), (salami,3), (mozzarella,1). -/
theorem convert_alpha_to_beta_counts (gv : Versions) (p : v1alpha1.Pizza) :
    (∃ pb, convert gv (.alpha p) gv.beta = .ok (.beta pb) ∧
      (pb.Spec.Toppings.map (·.Name)).Nodup ∧
      (∀ k, k ∈ pb.Spec.Toppings.map (·.Name) ↔ k ∈ p.Spec.Toppings) ∧
      (pb.Spec.Toppings.map (·.Name)).Pairwise
        (fun a b => p.Spec.Toppings.indexOf a < p.Spec.Toppings.indexOf b) ∧
      ∀ t ∈ pb.Spec.Toppings,
        t.Quantity = (p.Spec.Toppings.count t.Name : Int) ∧ 1 ≤ t.Quantity) ∧
    convert gv
        (.alpha { p with Spec := { Toppings :=
          ["tomato", "salami", "tomato", "mozzarella", "salami", "salami"] } })
        gv.beta
      = .ok (.beta {
          TypeMeta := { p.TypeMeta with APIVersion := gv.beta }
          ObjectMeta := p.ObjectMeta
          Spec := { Toppings := [⟨"tomato", 2⟩, ⟨"salami", 3⟩, ⟨"mozzarella", 1⟩] }
          Status := { Cost := p.Status.Cost } }) := by
  constructor
  · have inv := countInv_foldl p.Spec.Toppings
    refine ⟨_, convert_alpha_eq gv p, inv.nodup, inv.mem, inv.order, ?_⟩
    intro t ht
    refine ⟨inv.qty t ht, ?_⟩
    have hmem : t.Name ∈ p.Spec.Toppings := (inv.mem t.Name).1 (List.mem_map_of_mem _ ht)
    have hpos : 0 < p.Spec.Toppings.count t.Name := List.count_pos_iff.2 hmem
    rw [inv.qty t ht]
    exact_mod_cast hpos
  · rw [convert_alpha_eq]
    have : (["tomato", "salami", "tomato", "mozzarella", "salami", "salami"] : List String).foldl
        countStep [] = [⟨"tomato", 2⟩, ⟨"salami", 3⟩, ⟨"mozzarella", 1⟩] := by decide
    simp only [this]

/-- C3: converting a `v1beta1` pizza to `v1alpha1` succeeds for every topping
list, and the output is the concatenation, in input order, of `Quantity` copies
of each entry's name; an entry whose quantity is zero or negative contributes
nothing (the output is the one obtained without that entry).  The list
(tomato,2), (salami,3), (mozzarella,1) becomes tomato, tomato, salami, salami,
salami, mozzarella. -/
theorem convert_beta_to_alpha_copies (gv : Versions) (p : v1beta1.Pizza) :
    (∃ pa, convert gv (.beta p) gv.alpha = .ok (.alpha pa) ∧
      pa.Spec.Toppings =
        (p.Spec.Toppings.map (fun t => List.replicate t.Quantity.toNat t.Name)).flatten ∧
      ∀ pre t post, p.Spec.Toppings = pre ++ t :: post → t.Quantity ≤ 0 →
        convert gv (.beta { p with Spec := { Toppings := pre ++ post } }) gv.alpha
          = .ok (.alpha pa)) ∧
    convert gv
        (.beta { p with Spec := { Toppings :=
          [⟨"tomato", 2⟩, ⟨"salami", 3⟩, ⟨"mozzarella", 1⟩] } })
        gv.alpha
      = .ok (.alpha {
          TypeMeta := { p.TypeMeta with APIVersion := gv.alpha }
          ObjectMeta := p.ObjectMeta
          Spec := { Toppings :=
            ["tomato", "tomato", "salami", "salami", "salami", "mozzarella"] }
          Status := { Cost := p.Status.Cost } }) := by
  constructor
  · refine ⟨_, convert_beta_eq gv p, ?_, ?_⟩
    · simp only [expand, List.flatMap]
    · intro pre t post hp hq
      rw [convert_beta_eq, hp]
      have h0 : t.Quantity.toNat = 0 := by omega
      simp [expand, List.flatMap_cons, h0]
  · rw [convert_beta_eq]
    have : expand [⟨"tomato", 2⟩, ⟨"salami", 3⟩, ⟨"mozzarella", 1⟩]
        = ["tomato", "tomato", "salami", "salami", "salami", "mozzarella"] := by decide
    simp only [this]

/-- Witness for C3: the entries (x,0) and (y,-2) contribute no copies. -/
theorem convert_beta_to_alpha_copies_witness :
    ∃ pa, convert sampleVersions
        (.beta (sampleBeta [⟨"tomato", 2⟩, ⟨"x", 0⟩, ⟨"salami", 1⟩, ⟨"y", -2⟩])) "g/v1alpha1"
        = .ok (.alpha pa) ∧
      pa.Spec.Toppings = ["tomato", "tomato", "salami"] := by
  obtain ⟨pa, h1, h2, _⟩ := (convert_beta_to_alpha_copies sampleVersions
    (sampleBeta [⟨"tomato", 2⟩, ⟨"x", 0⟩, ⟨"salami", 1⟩, ⟨"y", -2⟩])).1
  exact ⟨pa, h1, h2.trans (by decide)⟩

/-- C4: `convert` returns an object exactly for a `v1alpha1` pizza with target
`v1beta1` and for a `v1beta1` pizza with target `v1alpha1`; for every other
pair it returns an error and no object, and it never panics.  A pizza whose
target is not the other version (its own version included) fails with
"cannot convert <source> to <target>", and an object of any other type fails
with "unknown type <type>", a text different from every "cannot convert" one. -/
theorem convert_ok_iff (gv : Versions) (hne : gv.alpha ≠ gv.beta) (obj : Object)
    (apiVersion : String) :
    ((∃ o, convert gv obj apiVersion = .ok o) ↔
      ((∃ p, obj = .alpha p) ∧ apiVersion = gv.beta) ∨
      ((∃ p, obj = .beta p) ∧ apiVersion = gv.alpha)) ∧
    ((¬ ∃ o, convert gv obj apiVersion = .ok o) → ∃ e, convert gv obj apiVersion = .err e) ∧
    (∀ p, apiVersion ≠ gv.beta → convert gv (.alpha p) apiVersion
      = .err ("cannot convert " ++ gv.alpha ++ " to " ++ apiVersion)) ∧
    (∀ p, apiVersion ≠ gv.alpha → convert gv (.beta p) apiVersion
      = .err ("cannot convert " ++ gv.beta ++ " to " ++ apiVersion)) ∧
    (∀ p, convert gv (.alpha p) gv.alpha
      = .err ("cannot convert " ++ gv.alpha ++ " to " ++ gv.alpha)) ∧
    (∀ p, convert gv (.beta p) gv.beta
      = .err ("cannot convert " ++ gv.beta ++ " to " ++ gv.beta)) ∧
    (∀ T, convert gv (.other T) apiVersion = .err ("unknown type " ++ T)) ∧
    (∀ T a b, "unknown type " ++ T ≠ "cannot convert " ++ a ++ " to " ++ b) := by
  have halpha : ∀ (p : v1alpha1.Pizza) (v : String), v ≠ gv.beta →
      convert gv (.alpha p) v = .err ("cannot convert " ++ gv.alpha ++ " to " ++ v) := by
    intro p v hv
    simp only [convert, if_pos hv]
  have hbeta : ∀ (p : v1beta1.Pizza) (v : String), v ≠ gv.alpha →
      convert gv (.beta p) v = .err ("cannot convert " ++ gv.beta ++ " to " ++ v) := by
    intro p v hv
    simp only [convert, if_pos hv]
  refine ⟨?_, ?_, fun p h => halpha p _ h, fun p h => hbeta p _ h, fun p => halpha p _ hne,
    fun p => hbeta p _ (Ne.symm hne), fun T => rfl, unknown_ne_cannot⟩
  · constructor
    · rintro ⟨o, ho⟩
      cases obj with
      | alpha p =>
        by_cases h : apiVersion = gv.beta
        · exact Or.inl ⟨⟨p, rfl⟩, h⟩
        · rw [halpha p _ h] at ho
          cases ho
      | beta p =>
        by_cases h : apiVersion = gv.alpha
        · exact Or.inr ⟨⟨p, rfl⟩, h⟩
        · rw [hbeta p _ h] at ho
          cases ho
      | other T => cases ho
    · rintro (⟨⟨p, rfl⟩, rfl⟩ | ⟨⟨p, rfl⟩, rfl⟩)
      · exact ⟨_, convert_alpha_eq gv p⟩
      · exact ⟨_, convert_beta_eq gv p⟩
  · intro hno
    cases obj with
    | alpha p =>
      by_cases h : apiVersion = gv.beta
      · exact absurd ⟨_, h ▸ convert_alpha_eq gv p⟩ hno
      · exact ⟨_, halpha p _ h⟩
    | beta p =>
      by_cases h : apiVersion = gv.alpha
      · exact absurd ⟨_, h ▸ convert_beta_eq gv p⟩ hno
      · exact ⟨_, hbeta p _ h⟩
    | other T => exact ⟨_, rfl⟩

/-- Witness for C4 at the version strings "g/v1alpha1" and "g/v1beta1" and a
`v1alpha1` pizza asked to be converted to its own version. -/
theorem convert_ok_iff_witness :
    (⟨"g/v1alpha1", "g/v1beta1"⟩ : Versions).alpha ≠ (⟨"g/v1alpha1", "g/v1beta1"⟩ : Versions).beta ∧
    convert ⟨"g/v1alpha1", "g/v1beta1"⟩
        (.alpha ⟨⟨"Pizza", "g/v1alpha1"⟩, ⟨"default", "margherita"⟩, ⟨["tomato"]⟩, ⟨0⟩⟩)
        "g/v1alpha1"
      = .err ("cannot convert " ++ "g/v1alpha1" ++ " to " ++ "g/v1alpha1") :=
  ⟨by decide,
   (convert_ok_iff ⟨"g/v1alpha1", "g/v1beta1"⟩ (by decide)
      (.alpha ⟨⟨"Pizza", "g/v1alpha1"⟩, ⟨"default", "margherita"⟩, ⟨["tomato"]⟩, ⟨0⟩⟩)
      "g/v1alpha1").2.2.2.2.1 _⟩

/-- C10: for a `v1beta1` pizza whose topping names are pairwise distinct and
whose quantities are all at least 1, converting to `v1alpha1` and back to
`v1beta1` succeeds both times and returns exactly the original topping list. -/
theorem convert_beta_roundtrip_exact (gv : Versions) (p : v1beta1.Pizza)
    (hnd : (p.Spec.Toppings.map (·.Name)).Nodup)
    (hq : ∀ t ∈ p.Spec.Toppings, 1 ≤ t.Quantity) :
    ∃ pa pb, convert gv (.beta p) gv.alpha = .ok (.alpha pa) ∧
      convert gv (.alpha pa) gv.beta = .ok (.beta pb) ∧
      pb.Spec.Toppings = p.Spec.Toppings := by
  refine ⟨_, _, convert_beta_eq gv p, convert_alpha_eq gv _, ?_⟩
  have := foldl_countStep_expand p.Spec.Toppings [] (by simpa [names] using hnd) hq
  simpa using this

/-- Witness for C10 at the list (tomato,2), (salami,3), (mozzarella,1). -/
theorem convert_beta_roundtrip_exact_witness :
    ∃ pa pb,
      convert ⟨"g/v1alpha1", "g/v1beta1"⟩
          (.beta ⟨⟨"Pizza", "g/v1beta1"⟩, ⟨"default", "salami"⟩,
            ⟨[⟨"tomato", 2⟩, ⟨"salami", 3⟩, ⟨"mozzarella", 1⟩]⟩, ⟨0⟩⟩)
          "g/v1alpha1" = .ok (.alpha pa) ∧
      convert ⟨"g/v1alpha1", "g/v1beta1"⟩ (.alpha pa) "g/v1beta1" = .ok (.beta pb) ∧
      pb.Spec.Toppings = [⟨"tomato", 2⟩, ⟨"salami", 3⟩, ⟨"mozzarella", 1⟩] :=
  convert_beta_roundtrip_exact ⟨"g/v1alpha1", "g/v1beta1"⟩
    ⟨⟨"Pizza", "g/v1beta1"⟩, ⟨"default", "salami"⟩,
      ⟨[⟨"tomato", 2⟩, ⟨"salami", 3⟩, ⟨"mozzarella", 1⟩]⟩, ⟨0⟩⟩
    (by decide) (by decide)

/-! ## The conversion handler -/

theorem convertObjects_all_ok (gv : Versions) (decodeObject : Bytes → Except String Object)
    (v : String) (result : Status) (xs : List RawExtension) :
    ∀ (objs outs : List Object),
      xs.map (objectOutcome gv decodeObject v) = outs.map Res.ok →
      convertObjects gv decodeObject v result objs xs = some (result, objs ++ outs) := by
  induction xs with
  | nil =>
    intro objs outs h
    cases outs with
    | nil => simp [convertObjects]
    | cons o os => simp at h
  | cons x xs ih =>
    intro objs outs h
    cases outs with
    | nil => simp at h
    | cons o os =>
      simp only [List.map_cons, List.cons.injEq] at h
      obtain ⟨hx, hrest⟩ := h
      unfold objectOutcome at hx
      unfold convertObjects
      cases hd : decodeIfNil decodeObject x with
      | error e => simp [hd] at hx
      | ok d =>
        simp only [hd] at hx
        simp only [hx, ih (objs ++ [o]) os hrest, List.append_assoc, List.singleton_append]

theorem convertObjects_first_error (gv : Versions)
    (decodeObject : Bytes → Except String Object) (v : String) (result : Status)
    (pre : List RawExtension) (bad : RawExtension) (post : List RawExtension) (e : String)
    (hbad : objectOutcome gv decodeObject v bad = .err e) :
    ∀ (objs oks : List Object),
      pre.map (objectOutcome gv decodeObject v) = oks.map Res.ok →
      convertObjects gv decodeObject v result objs (pre ++ bad :: post)
        = some ({ Message := e, Status := StatusFailure }, objs ++ oks) := by
  induction pre with
  | nil =>
    intro objs oks h
    cases oks with
    | cons o os => simp at h
    | nil =>
      unfold objectOutcome at hbad
      simp only [List.nil_append, List.append_nil]
      unfold convertObjects
      cases hd : decodeIfNil decodeObject bad with
      | error e' =>
        simp only [hd, Res.err.injEq] at hbad
        simp only [hbad]
      | ok d =>
        simp only [hd] at hbad
        simp only [hbad]
  | cons x xs ih =>
    intro objs oks h
    cases oks with
    | nil => simp at h
    | cons o os =>
      simp only [List.map_cons, List.cons.injEq] at h
      obtain ⟨hx, hrest⟩ := h
      unfold objectOutcome at hx
      simp only [List.cons_append]
      unfold convertObjects
      cases hd : decodeIfNil decodeObject x with
      | error e' => simp [hd] at hx
      | ok d =>
        simp only [hd] at hx
        simp only [hx, ih (objs ++ [o]) os hrest, List.append_assoc, List.singleton_append]

theorem objectOutcome_ne_panic (gv : Versions) (decodeObject : Bytes → Except String Object)
    (v : String) (x : RawExtension) : objectOutcome gv decodeObject v x ≠ .panic := by
  unfold objectOutcome
  cases decodeIfNil decodeObject x with
  | error e => exact fun h => Res.noConfusion h
  | ok o => exact convert_ne_panic gv o v

theorem batch_cases (gv : Versions) (decodeObject : Bytes → Except String Object)
    (v : String) (xs : List RawExtension) :
    (∃ outs : List Object, xs.map (objectOutcome gv decodeObject v) = outs.map Res.ok) ∨
    (∃ pre bad post, ∃ oks : List Object, ∃ e, xs = pre ++ bad :: post ∧
      pre.map (objectOutcome gv decodeObject v) = oks.map Res.ok ∧
      objectOutcome gv decodeObject v bad = .err e) := by
  induction xs with
  | nil => exact Or.inl ⟨[], rfl⟩
  | cons x xs ih =>
    cases hx : objectOutcome gv decodeObject v x with
    | panic => exact absurd hx (objectOutcome_ne_panic gv decodeObject v x)
    | err e => exact Or.inr ⟨[], x, xs, [], e, rfl, rfl, hx⟩
    | ok o =>
      rcases ih with ⟨outs, h⟩ | ⟨pre, bad, post, oks, e, hsplit, hpre, hbad⟩
      · exact Or.inl ⟨o :: outs, by simp [hx, h]⟩
      · exact Or.inr ⟨x :: pre, bad, post, o :: oks, e, by simp [hsplit], by simp [hx, hpre],
          hbad⟩

/-- C5: when the body decodes to a conversion review with a request, `Serve`
writes the review with a response that echoes the UID and
(1) if every object of the batch decodes and converts, has status Success and
carries exactly the conversions of the inputs, in the same order;
(2) if some object fails to decode or convert, has status Failure, the message
of the first object that fails, and no converted object, even when earlier
objects converted;
and one of the two cases always applies. -/
theorem Serve_fail_fast (gv : Versions)
    (decodeBody : Bytes → Except String (DecodedBody ConversionReview))
    (decodeObject : Bytes → Except String Object)
    (body : Bytes) (review : ConversionReview) (gvk : String) (request : ConversionRequest)
    (hbody : decodeBody body = .ok (.review review gvk))
    (hreq : review.Request = some request) :
    ∃ response,
      Serve gv decodeBody decodeObject (.ok body)
        = .object { review with Response := some response } gvk ∧
      response.UID = request.UID ∧
      (∀ outs : List Object,
        request.Objects.map (objectOutcome gv decodeObject request.DesiredAPIVersion)
          = outs.map Res.ok →
        response.Result.Status = StatusSuccess ∧
        response.ConvertedObjects = outs.map (fun o => { Raw := [], Object := some o })) ∧
      (∀ pre bad post, ∀ oks : List Object, ∀ e, request.Objects = pre ++ bad :: post →
        pre.map (objectOutcome gv decodeObject request.DesiredAPIVersion) = oks.map Res.ok →
        objectOutcome gv decodeObject request.DesiredAPIVersion bad = .err e →
        response.Result = { Status := StatusFailure, Message := e } ∧
        response.ConvertedObjects = []) ∧
      ((∃ outs : List Object,
          request.Objects.map (objectOutcome gv decodeObject request.DesiredAPIVersion)
            = outs.map Res.ok) ∨
        (∃ pre bad post, ∃ oks : List Object, ∃ e, request.Objects = pre ++ bad :: post ∧
          pre.map (objectOutcome gv decodeObject request.DesiredAPIVersion) = oks.map Res.ok ∧
          objectOutcome gv decodeObject request.DesiredAPIVersion bad = .err e)) := by
  have hcases := batch_cases gv decodeObject request.DesiredAPIVersion request.Objects
  rcases hcases with ⟨outs, hall⟩ | ⟨pre, bad, post, oks, e, hsplit, hpre, hbad⟩
  · have hloop := convertObjects_all_ok gv decodeObject request.DesiredAPIVersion
      { Status := StatusSuccess, Message := "" } request.Objects [] outs hall
    refine ⟨{ UID := request.UID,
              ConvertedObjects := outs.map (fun o => { Raw := [], Object := some o }),
              Result := { Status := StatusSuccess, Message := "" } }, ?_, rfl, ?_, ?_,
            Or.inl ⟨outs, hall⟩⟩
    · simp only [Serve, hbody, hreq, hloop, List.nil_append, if_true]
    · intro outs' hall'
      have : outs' = outs := by
        have h := hall'.symm.trans hall
        exact List.map_injective_iff.2 (fun a b hab => Res.ok.inj hab) h
      subst this
      exact ⟨rfl, rfl⟩
    · intro pre bad post oks e hsplit hpre hbad
      exfalso
      rw [hsplit, List.map_append, List.map_cons, hbad] at hall
      have hmem : Res.err e ∈ outs.map Res.ok := by
        rw [← hall]; simp
      obtain ⟨o, _, ho⟩ := List.mem_map.1 hmem
      cases ho
  · have hloop := convertObjects_first_error gv decodeObject request.DesiredAPIVersion
      { Status := StatusSuccess, Message := "" } pre bad post e hbad [] oks hpre
    rw [← hsplit] at hloop
    refine ⟨{ UID := request.UID, ConvertedObjects := [],
              Result := { Status := StatusFailure, Message := e } }, ?_, rfl, ?_, ?_,
            Or.inr ⟨pre, bad, post, oks, e, hsplit, hpre, hbad⟩⟩
    · have hne : ¬ StatusFailure = StatusSuccess := by decide
      simp only [Serve, hbody, hreq, hloop, hne, if_false]
    · intro outs hall
      exfalso
      rw [hsplit, List.map_append, List.map_cons, hbad] at hall
      have hmem : Res.err e ∈ outs.map Res.ok := by
        rw [← hall]; simp
      obtain ⟨o, _, ho⟩ := List.mem_map.1 hmem
      cases ho
    · intro pre' bad' post' oks' e' hsplit' hpre' hbad'
      have hloop' := convertObjects_first_error gv decodeObject request.DesiredAPIVersion
        { Status := StatusSuccess, Message := "" } pre' bad' post' e' hbad' [] oks' hpre'
      rw [← hsplit', hloop] at hloop'
      simp only [Option.some.injEq, Prod.mk.injEq, Status.mk.injEq] at hloop'
      refine ⟨?_, rfl⟩
      rw [hloop'.1.2]

/-- Witness for C5 on the batch valid, invalid, valid: the response is the
failure of the second object and carries no converted object. -/
theorem Serve_fail_fast_witness :
    ∃ response,
      Serve sampleVersions
          (fun _ => .ok (.review { Request := some sampleConversionRequest, Response := none }
            "apiextensions.k8s.io/v1beta1, Kind=ConversionReview"))
          (fun _ => .error "no kind") (.ok [])
        = .object { Request := some sampleConversionRequest, Response := some response }
            "apiextensions.k8s.io/v1beta1, Kind=ConversionReview" ∧
      response.Result = { Status := StatusFailure, Message := "unknown type *v1.Pod" } ∧
      response.ConvertedObjects = [] := by
  obtain ⟨response, h1, _, _, h3, _⟩ := Serve_fail_fast sampleVersions
    (fun _ => .ok (.review { Request := some sampleConversionRequest, Response := none }
      "apiextensions.k8s.io/v1beta1, Kind=ConversionReview"))
    (fun _ => .error "no kind") [] { Request := some sampleConversionRequest, Response := none }
    "apiextensions.k8s.io/v1beta1, Kind=ConversionReview" sampleConversionRequest rfl rfl
  exact ⟨response, h1,
    h3 [{ Raw := [], Object := some (.alpha (sampleAlpha ["tomato", "tomato"])) }]
      { Raw := [], Object := some (.other "*v1.Pod") }
      [{ Raw := [], Object := some (.alpha (sampleAlpha ["salami"])) }]
      [.beta { TypeMeta := { Kind := "Pizza", APIVersion := "g/v1beta1" }
               ObjectMeta := { Namespace := "default", Name := "margherita" }
               Spec := { Toppings := [⟨"tomato", 2⟩] }
               Status := { Cost := 0 } }]
      "unknown type *v1.Pod" rfl (by decide) (by decide)⟩

/-! ## The validation handler -/

theorem validateAlpha_all_found (get : String → LookupResult) (fmtQ : String → String)
    (xs : List String) (h : ∀ n ∈ xs, get n = .found) :
    ∀ lookups, validateAlpha get fmtQ xs lookups = (.allowed, lookups ++ xs) := by
  induction xs with
  | nil => intro lookups; simp [validateAlpha]
  | cons x xs ih =>
    intro lookups
    have hx : get x = .found := h x (List.mem_cons_self _ _)
    simp only [validateAlpha, hx, ih (fun n hn => h n (List.mem_cons_of_mem _ hn)),
      List.append_assoc, List.singleton_append]

theorem validateAlpha_first_unknown (get : String → LookupResult) (fmtQ : String → String)
    (pre : List String) (bad : String) (post : List String)
    (hpre : ∀ n ∈ pre, get n = .found) (hbad : get bad = .notFound) :
    ∀ lookups, validateAlpha get fmtQ (pre ++ bad :: post) lookups
      = (.denied ("topping " ++ fmtQ bad ++ " not known"), lookups ++ (pre ++ [bad])) := by
  induction pre with
  | nil => intro lookups; simp only [List.nil_append, validateAlpha, hbad]
  | cons x xs ih =>
    intro lookups
    have hx : get x = .found := hpre x (List.mem_cons_self _ _)
    rw [List.cons_append, validateAlpha]
    simp only [hx]
    rw [ih (fun n hn => hpre n (List.mem_cons_of_mem _ hn))]
    simp only [List.append_assoc, List.singleton_append, List.cons_append, List.nil_append]

theorem validateBeta_all_found (get : String → LookupResult) (fmtQ : String → String)
    (fmtQc : Int → String) (xs : List v1beta1.PizzaTopping)
    (h : ∀ t ∈ xs, get t.Name = .found) :
    ∀ lookups, validateBeta get fmtQ fmtQc xs lookups
      = (.allowed, lookups ++ xs.map (·.Name)) := by
  induction xs with
  | nil => intro lookups; simp [validateBeta]
  | cons x xs ih =>
    intro lookups
    have hx : get x.Name = .found := h x (List.mem_cons_self _ _)
    simp only [validateBeta, hx, ih (fun n hn => h n (List.mem_cons_of_mem _ hn)),
      List.append_assoc, List.singleton_append, List.map_cons]

theorem validateBeta_first_unknown (get : String → LookupResult) (fmtQ : String → String)
    (fmtQc : Int → String) (pre : List v1beta1.PizzaTopping) (bad : v1beta1.PizzaTopping)
    (post : List v1beta1.PizzaTopping)
    (hpre : ∀ t ∈ pre, get t.Name = .found) (hbad : get bad.Name = .notFound) :
    ∀ lookups, validateBeta get fmtQ fmtQc (pre ++ bad :: post) lookups
      = (.denied ("topping " ++ fmtQTopping fmtQ fmtQc bad ++ " not known"),
          lookups ++ (pre.map (·.Name) ++ [bad.Name])) := by
  induction pre with
  | nil => intro lookups; simp only [List.nil_append, validateBeta, hbad, List.map_nil]
  | cons x xs ih =>
    intro lookups
    have hx : get x.Name = .found := hpre x (List.mem_cons_self _ _)
    rw [List.cons_append, validateBeta]
    simp only [hx]
    rw [ih (fun n hn => hpre n (List.mem_cons_of_mem _ hn))]
    simp only [List.append_assoc, List.singleton_append, List.cons_append, List.map_cons,
      List.nil_append]

theorem first_failure_split {α : Type} (P : α → Prop) (xs : List α)
    (h : ¬ ∀ x ∈ xs, P x) :
    ∃ pre bad post, xs = pre ++ bad :: post ∧ (∀ x ∈ pre, P x) ∧ ¬ P bad := by
  induction xs with
  | nil => exact absurd (fun x hx => absurd hx (List.not_mem_nil x)) h
  | cons y ys ih =>
    by_cases hy : P y
    · have hys : ¬ ∀ x ∈ ys, P x := by
        intro hall
        apply h
        intro x hx
        rcases List.mem_cons.1 hx with rfl | hx
        · exact hy
        · exact hall x hx
      obtain ⟨pre, bad, post, hsplit, hpre, hbad⟩ := ih hys
      refine ⟨y :: pre, bad, post, by simp [hsplit], ?_, hbad⟩
      intro x hx
      rcases List.mem_cons.1 hx with rfl | hx
      · exact hy
      · exact hpre x hx
    · exact ⟨[], y, ys, rfl, fun x hx => absurd hx (List.not_mem_nil x), hy⟩

/-- C6: with a synchronized informer and a lister that answers only found or
not-found, the validation handler writes a response for a pizza of either
version that is allowed exactly when every referenced topping name is found.
When some name is not found, the response is not allowed, its message quotes
the first such topping in declared order (for `v1beta1` the whole entry, name
and quantity, is formatted), and the names looked up are exactly those up to
and including that topping: no later topping is looked up. -/
theorem ServePizzaValidation_first_unknown (get : String → LookupResult)
    (fmtQ : String → String) (fmtQc : Int → String)
    (decodeBody : Bytes → Except String (DecodedBody AdmissionReview))
    (decodeObject : Bytes → Except String Object)
    (body : Bytes) (review : AdmissionReview) (gvk : String) (request : AdmissionRequest)
    (hbody : decodeBody body = .ok (.review review gvk))
    (hreq : review.Request = some request)
    (hget : ∀ n, get n = .found ∨ get n = .notFound) :
    (∀ p : v1alpha1.Pizza, decodeIfNil decodeObject request.Object = .ok (.alpha p) →
      ∃ response lookups,
        ServePizzaValidation true get fmtQ fmtQc decodeBody decodeObject (.ok body)
          = (.object { review with Response := some response } gvk, lookups) ∧
        (response.Allowed = true ↔ ∀ n ∈ p.Spec.Toppings, get n = .found) ∧
        ((∀ n ∈ p.Spec.Toppings, get n = .found) → lookups = p.Spec.Toppings) ∧
        (∀ pre bad post, p.Spec.Toppings = pre ++ bad :: post →
          (∀ n ∈ pre, get n = .found) → get bad = .notFound →
          response.Allowed = false ∧
          response.Result = some { Status := StatusFailure,
                                   Message := "topping " ++ fmtQ bad ++ " not known" } ∧
          lookups = pre ++ [bad])) ∧
    (∀ p : v1beta1.Pizza, decodeIfNil decodeObject request.Object = .ok (.beta p) →
      ∃ response lookups,
        ServePizzaValidation true get fmtQ fmtQc decodeBody decodeObject (.ok body)
          = (.object { review with Response := some response } gvk, lookups) ∧
        (response.Allowed = true ↔ ∀ t ∈ p.Spec.Toppings, get t.Name = .found) ∧
        ((∀ t ∈ p.Spec.Toppings, get t.Name = .found) →
          lookups = p.Spec.Toppings.map (·.Name)) ∧
        (∀ pre bad post, p.Spec.Toppings = pre ++ bad :: post →
          (∀ t ∈ pre, get t.Name = .found) → get bad.Name = .notFound →
          response.Allowed = false ∧
          response.Result = some {
            Status := StatusFailure
            Message := "topping " ++ ("\x7b" ++ fmtQ bad.Name ++ " " ++ fmtQc bad.Quantity ++ "\x7d")
              ++ " not known" } ∧
          lookups = pre.map (·.Name) ++ [bad.Name])) := by
  constructor
  · intro p hobj
    have hdenied : ∀ pre bad post, p.Spec.Toppings = pre ++ bad :: post →
        (∀ n ∈ pre, get n = .found) → get bad = .notFound →
        ServePizzaValidation true get fmtQ fmtQc decodeBody decodeObject (.ok body)
          = (.object ⟨review.Request, some ⟨request.UID, false,
                some ⟨StatusFailure, "topping " ++ fmtQ bad ++ " not known"⟩, [], none⟩⟩ gvk,
              pre ++ [bad]) := by
      intro pre bad post hsplit hpre hbad
      have hv := validateAlpha_first_unknown get fmtQ pre bad post hpre hbad []
      rw [← hsplit] at hv
      simp only [ServePizzaValidation, hbody, hreq, hobj, hv, List.nil_append]
      rfl
    by_cases hall : ∀ n ∈ p.Spec.Toppings, get n = .found
    · have hv := validateAlpha_all_found get fmtQ p.Spec.Toppings hall []
      refine ⟨⟨request.UID, true, none, [], none⟩, p.Spec.Toppings,
        ?_, ?_, fun _ => rfl, ?_⟩
      · simp only [ServePizzaValidation, hbody, hreq, hobj, hv, List.nil_append]
        rfl
      · exact ⟨fun _ => hall, fun _ => rfl⟩
      · intro pre bad post hsplit _ hbad
        have hf := hall bad (by rw [hsplit]; simp)
        rw [hf] at hbad
        cases hbad
    · obtain ⟨pre, bad, post, hsplit, hpre, hbad⟩ := first_failure_split _ _ hall
      have hbad' : get bad = .notFound := (hget bad).resolve_left hbad
      have h1 := hdenied pre bad post hsplit hpre hbad'
      refine ⟨_, _, h1, ?_, fun h => absurd h hall, ?_⟩
      · constructor
        · intro h
          simp [AdmissionResponse.new] at h
        · intro h
          exact absurd h hall
      · intro pre' bad' post' hsplit' hpre' hbad2
        have h2 := hdenied pre' bad' post' hsplit' hpre' hbad2
        rw [h1] at h2
        simp only [Prod.mk.injEq, Written.object.injEq, AdmissionReview.mk.injEq,
          Option.some.injEq, and_true, true_and] at h2
        refine ⟨rfl, ?_, h2.2⟩
        rw [h2.1]
  · intro p hobj
    have hdenied : ∀ pre bad post, p.Spec.Toppings = pre ++ bad :: post →
        (∀ t ∈ pre, get t.Name = .found) → get bad.Name = .notFound →
        ServePizzaValidation true get fmtQ fmtQc decodeBody decodeObject (.ok body)
          = (.object ⟨review.Request, some ⟨request.UID, false,
                some ⟨StatusFailure, "topping " ++
                  ("\x7b" ++ fmtQ bad.Name ++ " " ++ fmtQc bad.Quantity ++ "\x7d")
                  ++ " not known"⟩, [], none⟩⟩ gvk,
              pre.map (·.Name) ++ [bad.Name]) := by
      intro pre bad post hsplit hpre hbad
      have hv := validateBeta_first_unknown get fmtQ fmtQc pre bad post hpre hbad []
      rw [← hsplit] at hv
      simp only [ServePizzaValidation, hbody, hreq, hobj, hv, List.nil_append, fmtQTopping]
      rfl
    by_cases hall : ∀ t ∈ p.Spec.Toppings, get t.Name = .found
    · have hv := validateBeta_all_found get fmtQ fmtQc p.Spec.Toppings hall []
      refine ⟨⟨request.UID, true, none, [], none⟩,
        p.Spec.Toppings.map (·.Name), ?_, ?_, fun _ => rfl, ?_⟩
      · simp only [ServePizzaValidation, hbody, hreq, hobj, hv, List.nil_append]
        rfl
      · exact ⟨fun _ => hall, fun _ => rfl⟩
      · intro pre bad post hsplit _ hbad
        have hf := hall bad (by rw [hsplit]; simp)
        rw [hf] at hbad
        cases hbad
    · obtain ⟨pre, bad, post, hsplit, hpre, hbad⟩ :=
        first_failure_split (fun t : v1beta1.PizzaTopping => get t.Name = .found) _ hall
      have hbad' : get bad.Name = .notFound := (hget bad.Name).resolve_left hbad
      have h1 := hdenied pre bad post hsplit hpre hbad'
      refine ⟨_, _, h1, ?_, fun h => absurd h hall, ?_⟩
      · constructor
        · intro h
          simp [AdmissionResponse.new] at h
        · intro h
          exact absurd h hall
      · intro pre' bad' post' hsplit' hpre' hbad2
        have h2 := hdenied pre' bad' post' hsplit' hpre' hbad2
        rw [h1] at h2
        simp only [Prod.mk.injEq, Written.object.injEq, AdmissionReview.mk.injEq,
          Option.some.injEq, and_true, true_and] at h2
        refine ⟨rfl, ?_, h2.2⟩
        rw [h2.1]

/-- Witness for C6: toppings pepperoni, unknown-xyz against a catalog holding
only pepperoni are denied with a message quoting unknown-xyz; in the order
unknown-xyz, pepperoni only unknown-xyz is looked up. -/
theorem ServePizzaValidation_first_unknown_witness :
    (∃ response lookups,
      ServePizzaValidation true sampleCatalog sampleQuote sampleQuoteInt
          (sampleDecodeBody (sampleAdmissionRequest
            (.alpha (sampleAlpha ["pepperoni", "unknown-xyz"]))))
          (fun _ => .error "no kind") (.ok [])
        = (.object { Request := some (sampleAdmissionRequest
                        (.alpha (sampleAlpha ["pepperoni", "unknown-xyz"]))),
                     Response := some response }
            "admission.k8s.io/v1beta1, Kind=AdmissionReview", lookups) ∧
      response.Allowed = false ∧
      response.Result = some { Status := StatusFailure,
                               Message := "topping " ++ sampleQuote "unknown-xyz" ++ " not known" } ∧
      lookups = ["pepperoni", "unknown-xyz"]) ∧
    (∃ response lookups,
      ServePizzaValidation true sampleCatalog sampleQuote sampleQuoteInt
          (sampleDecodeBody (sampleAdmissionRequest
            (.alpha (sampleAlpha ["unknown-xyz", "pepperoni"]))))
          (fun _ => .error "no kind") (.ok [])
        = (.object { Request := some (sampleAdmissionRequest
                        (.alpha (sampleAlpha ["unknown-xyz", "pepperoni"]))),
                     Response := some response }
            "admission.k8s.io/v1beta1, Kind=AdmissionReview", lookups) ∧
      response.Allowed = false ∧
      lookups = ["unknown-xyz"]) := by
  have hget : ∀ n, sampleCatalog n = .found ∨ sampleCatalog n = .notFound := by
    intro n
    unfold sampleCatalog
    split
    · exact Or.inl rfl
    · exact Or.inr rfl
  constructor
  · obtain ⟨response, lookups, h1, _, _, h4⟩ :=
      (ServePizzaValidation_first_unknown sampleCatalog sampleQuote sampleQuoteInt
        (sampleDecodeBody (sampleAdmissionRequest
          (.alpha (sampleAlpha ["pepperoni", "unknown-xyz"]))))
        (fun _ => .error "no kind") []
        { Request := some (sampleAdmissionRequest
            (.alpha (sampleAlpha ["pepperoni", "unknown-xyz"]))), Response := none }
        "admission.k8s.io/v1beta1, Kind=AdmissionReview"
        (sampleAdmissionRequest (.alpha (sampleAlpha ["pepperoni", "unknown-xyz"])))
        rfl rfl hget).1 (sampleAlpha ["pepperoni", "unknown-xyz"]) rfl
    obtain ⟨h5, h6, h7⟩ := h4 ["pepperoni"] "unknown-xyz" [] rfl (by decide) (by decide)
    exact ⟨response, lookups, h1, h5, h6, h7⟩
  · obtain ⟨response, lookups, h1, _, _, h4⟩ :=
      (ServePizzaValidation_first_unknown sampleCatalog sampleQuote sampleQuoteInt
        (sampleDecodeBody (sampleAdmissionRequest
          (.alpha (sampleAlpha ["unknown-xyz", "pepperoni"]))))
        (fun _ => .error "no kind") []
        { Request := some (sampleAdmissionRequest
            (.alpha (sampleAlpha ["unknown-xyz", "pepperoni"]))), Response := none }
        "admission.k8s.io/v1beta1, Kind=AdmissionReview"
        (sampleAdmissionRequest (.alpha (sampleAlpha ["unknown-xyz", "pepperoni"])))
        rfl rfl hget).1 (sampleAlpha ["unknown-xyz", "pepperoni"]) rfl
    obtain ⟨h5, _, h7⟩ := h4 [] "unknown-xyz" ["pepperoni"] rfl (by decide) (by decide)
    exact ⟨response, lookups, h1, h5, h7⟩

/-- C7: when the topping informer has not synchronized, the validation handler
reports the internal error "informers not ready" for every request and every
catalog; it writes no admission response and looks nothing up. -/
theorem ServePizzaValidation_not_synced (get : String → LookupResult)
    (fmtQ : String → String) (fmtQc : Int → String)
    (decodeBody : Bytes → Except String (DecodedBody AdmissionReview))
    (decodeObject : Bytes → Except String Object) (body : Except String Bytes) :
    ServePizzaValidation false get fmtQ fmtQc decodeBody decodeObject body
      = (.internalError "informers not ready", []) := by
  simp [ServePizzaValidation]

/-! ## The mutation handler -/

/-- C8, as stated, fails: for a decoded `v1alpha1` pizza with the non-empty
toppings list tomato, whose re-encoding equals the original bytes and for which
the differ returns no operation, the response is allowed but it does carry a
patch: the encoded empty operation list, with patch type JSONPatch. -/
theorem ServePizzaAdmit_no_patch_counterexample :
    ¬ ∃ response,
      ServePizzaAdmit (sampleDecodeBody (sampleAdmissionRequest (.alpha (sampleAlpha ["tomato"]))))
          (fun _ => .error "no kind") (fun _ => .ok [123, 125]) (fun _ _ => .ok [])
          (fun _ => .ok [91, 93]) (.ok [])
        = .object { Request := some (sampleAdmissionRequest (.alpha (sampleAlpha ["tomato"]))),
                    Response := some response }
            "admission.k8s.io/v1beta1, Kind=AdmissionReview" ∧
      response.Allowed = true ∧ response.carriesNoPatch := by
  rintro ⟨response, h1, _, h3⟩
  have h : ServePizzaAdmit
      (sampleDecodeBody (sampleAdmissionRequest (.alpha (sampleAlpha ["tomato"]))))
      (fun _ => .error "no kind") (fun _ => .ok [123, 125]) (fun _ _ => .ok [])
      (fun _ => .ok [91, 93]) (.ok [])
      = .object { Request := some (sampleAdmissionRequest (.alpha (sampleAlpha ["tomato"]))),
                  Response := some ⟨"uid-2", true, none, [91, 93], some "JSONPatch"⟩ }
          "admission.k8s.io/v1beta1, Kind=AdmissionReview" := rfl
  rw [h] at h1
  simp only [Written.object.injEq, AdmissionReview.mk.injEq, Option.some.injEq, and_true,
    true_and] at h1
  subst h1
  exact absurd h3.2 (by simp)

/-- C8, amended: for every successfully decoded pizza of either version whose
toppings are already non-empty, when re-encoding, diffing and patch encoding
succeed the response is allowed and always carries a patch: patch type
JSONPatch and the encoding of the operations that the differ returns for the
original bytes and the encoding of the unchanged pizza. -/
theorem ServePizzaAdmit_always_patches
    (decodeBody : Bytes → Except String (DecodedBody AdmissionReview))
    (decodeObject : Bytes → Except String Object)
    (marshal : Object → Except String Bytes)
    (createPatch : Bytes → Bytes → Except String (List Operation))
    (marshalOps : List Operation → Except String Bytes)
    (body : Bytes) (review : AdmissionReview) (gvk : String) (request : AdmissionRequest)
    (obj : Object) (bs : Bytes) (ops : List Operation) (patch : Bytes)
    (hbody : decodeBody body = .ok (.review review gvk))
    (hreq : review.Request = some request)
    (hobj : decodeIfNil decodeObject request.Object = .ok obj)
    (hnonempty : (∃ p : v1alpha1.Pizza, obj = .alpha p ∧ p.Spec.Toppings ≠ []) ∨
      (∃ p : v1beta1.Pizza, obj = .beta p ∧ p.Spec.Toppings ≠ []))
    (hmarshal : marshal obj = .ok bs)
    (hdiff : createPatch request.Object.Raw bs = .ok ops)
    (hops : marshalOps ops = .ok patch) :
    ServePizzaAdmit decodeBody decodeObject marshal createPatch marshalOps (.ok body)
        = .object ⟨review.Request,
            some ⟨request.UID, true, none, patch, some PatchTypeJSONPatch⟩⟩ gvk ∧
    ¬ AdmissionResponse.carriesNoPatch
        ⟨request.UID, true, none, patch, some PatchTypeJSONPatch⟩ := by
  refine ⟨?_, fun h => absurd h.2 (by simp)⟩
  rcases hnonempty with ⟨p, rfl, hp⟩ | ⟨p, rfl, hp⟩
  · have hd : p.defaultToppings = p := by
      have : p.Spec.Toppings.length ≠ 0 := fun h => hp (List.length_eq_zero.1 h)
      simp only [v1alpha1.Pizza.defaultToppings, if_neg this]
    simp only [ServePizzaAdmit, hbody, hreq, hobj, hd, hmarshal, hdiff, hops]
    rfl
  · have hd : p.defaultToppings = p := by
      have : p.Spec.Toppings.length ≠ 0 := fun h => hp (List.length_eq_zero.1 h)
      simp only [v1beta1.Pizza.defaultToppings, if_neg this]
    simp only [ServePizzaAdmit, hbody, hreq, hobj, hd, hmarshal, hdiff, hops]
    rfl

/-- Witness for the amended C8 at the sample `v1alpha1` pizza with the one
topping tomato. -/
theorem ServePizzaAdmit_always_patches_witness :
    ServePizzaAdmit (sampleDecodeBody (sampleAdmissionRequest (.alpha (sampleAlpha ["tomato"]))))
        (fun _ => .error "no kind") (fun _ => .ok [123, 125]) (fun _ _ => .ok [])
        (fun _ => .ok [91, 93]) (.ok [])
      = .object { Request := some (sampleAdmissionRequest (.alpha (sampleAlpha ["tomato"]))),
                  Response := some ⟨"uid-2", true, none, [91, 93], some PatchTypeJSONPatch⟩ }
          "admission.k8s.io/v1beta1, Kind=AdmissionReview" :=
  (ServePizzaAdmit_always_patches
    (sampleDecodeBody (sampleAdmissionRequest (.alpha (sampleAlpha ["tomato"]))))
    (fun _ => .error "no kind") (fun _ => .ok [123, 125]) (fun _ _ => .ok [])
    (fun _ => .ok [91, 93]) []
    { Request := some (sampleAdmissionRequest (.alpha (sampleAlpha ["tomato"]))),
      Response := none }
    "admission.k8s.io/v1beta1, Kind=AdmissionReview"
    (sampleAdmissionRequest (.alpha (sampleAlpha ["tomato"])))
    (.alpha (sampleAlpha ["tomato"])) [123, 125] [] [91, 93]
    rfl rfl rfl (Or.inl ⟨sampleAlpha ["tomato"], rfl, by decide⟩) rfl rfl rfl).1

theorem alpha_defaultToppings_of_empty (p : v1alpha1.Pizza) (h : p.Spec.Toppings = []) :
    p.defaultToppings = { p with Spec := { Toppings := ["tomato", "mozzarella", "salami"] } } := by
  simp [v1alpha1.Pizza.defaultToppings, h]

theorem alpha_defaultToppings_of_nonempty (p : v1alpha1.Pizza) (h : p.Spec.Toppings ≠ []) :
    p.defaultToppings = p := by
  have : p.Spec.Toppings.length ≠ 0 := fun e => h (List.length_eq_zero.1 e)
  simp only [v1alpha1.Pizza.defaultToppings, if_neg this]

theorem alpha_defaultToppings_twice (p : v1alpha1.Pizza) :
    p.defaultToppings.defaultToppings = p.defaultToppings := by
  by_cases h : p.Spec.Toppings.length = 0
  · simp [v1alpha1.Pizza.defaultToppings, h]
  · simp [v1alpha1.Pizza.defaultToppings, h]

theorem beta_defaultToppings_of_empty (p : v1beta1.Pizza) (h : p.Spec.Toppings = []) :
    p.defaultToppings = { p with Spec := { Toppings :=
      [⟨"tomato", 1⟩, ⟨"mozzarella", 1⟩, ⟨"salami", 1⟩] } } := by
  simp [v1beta1.Pizza.defaultToppings, h]

theorem beta_defaultToppings_of_nonempty (p : v1beta1.Pizza) (h : p.Spec.Toppings ≠ []) :
    p.defaultToppings = p := by
  have : p.Spec.Toppings.length ≠ 0 := fun e => h (List.length_eq_zero.1 e)
  simp only [v1beta1.Pizza.defaultToppings, if_neg this]

theorem beta_defaultToppings_twice (p : v1beta1.Pizza) :
    p.defaultToppings.defaultToppings = p.defaultToppings := by
  by_cases h : p.Spec.Toppings.length = 0
  · simp [v1beta1.Pizza.defaultToppings, h]
  · simp [v1beta1.Pizza.defaultToppings, h]

theorem ServePizzaAdmit_alpha_encodes
    (decodeBody : Bytes → Except String (DecodedBody AdmissionReview))
    (decodeObject : Bytes → Except String Object)
    (marshal : Object → Except String Bytes)
    (createPatch : Bytes → Bytes → Except String (List Operation))
    (marshalOps : List Operation → Except String Bytes)
    (body : Bytes) (review : AdmissionReview) (gvk : String) (request : AdmissionRequest)
    (p : v1alpha1.Pizza)
    (hbody : decodeBody body = .ok (.review review gvk))
    (hreq : review.Request = some request)
    (hobj : decodeIfNil decodeObject request.Object = .ok (.alpha p)) :
    (∀ e, marshal (.alpha p.defaultToppings) = .error e →
      ServePizzaAdmit decodeBody decodeObject marshal createPatch marshalOps (.ok body)
        = .internalError ("unexpected encoding error: " ++ e)) ∧
    (∀ bs ops patch, marshal (.alpha p.defaultToppings) = .ok bs →
      createPatch request.Object.Raw bs = .ok ops → marshalOps ops = .ok patch →
      ServePizzaAdmit decodeBody decodeObject marshal createPatch marshalOps (.ok body)
        = .object ⟨review.Request,
            some ⟨request.UID, true, none, patch, some PatchTypeJSONPatch⟩⟩ gvk) := by
  constructor
  · intro e hm
    simp only [ServePizzaAdmit, hbody, hreq, hobj, hm]
  · intro bs ops patch hm hd ho
    simp only [ServePizzaAdmit, hbody, hreq, hobj, hm, hd, ho]
    rfl

theorem ServePizzaAdmit_beta_encodes
    (decodeBody : Bytes → Except String (DecodedBody AdmissionReview))
    (decodeObject : Bytes → Except String Object)
    (marshal : Object → Except String Bytes)
    (createPatch : Bytes → Bytes → Except String (List Operation))
    (marshalOps : List Operation → Except String Bytes)
    (body : Bytes) (review : AdmissionReview) (gvk : String) (request : AdmissionRequest)
    (p : v1beta1.Pizza)
    (hbody : decodeBody body = .ok (.review review gvk))
    (hreq : review.Request = some request)
    (hobj : decodeIfNil decodeObject request.Object = .ok (.beta p)) :
    (∀ e, marshal (.beta p.defaultToppings) = .error e →
      ServePizzaAdmit decodeBody decodeObject marshal createPatch marshalOps (.ok body)
        = .internalError ("unexpected encoding error: " ++ e)) ∧
    (∀ bs ops patch, marshal (.beta p.defaultToppings) = .ok bs →
      createPatch request.Object.Raw bs = .ok ops → marshalOps ops = .ok patch →
      ServePizzaAdmit decodeBody decodeObject marshal createPatch marshalOps (.ok body)
        = .object ⟨review.Request,
            some ⟨request.UID, true, none, patch, some PatchTypeJSONPatch⟩⟩ gvk) := by
  constructor
  · intro e hm
    simp only [ServePizzaAdmit, hbody, hreq, hobj, hm]
  · intro bs ops patch hm hd ho
    simp only [ServePizzaAdmit, hbody, hreq, hobj, hm, hd, ho]
    rfl

/-- C9: in the mutation handler `ServePizzaAdmit`, for a decoded pizza of either
version the resource that the handler encodes and diffs against the original
bytes is the pizza after defaulting: an empty toppings list is replaced by
exactly tomato, mozzarella, salami in that order (each with quantity 1 in
`v1beta1`), everything else and every pizza with a non-empty toppings list is
left unchanged.  Whatever the encoder, the differ and the patch encoder are,
the handler's answer is the one computed from that resource.  Applying the
handler a second time, to a request that carries the resource of the first
application, encodes that same resource again: defaulting twice yields the
same resource as defaulting once. -/
theorem ServePizzaAdmit_defaulting_idempotent
    (decodeBody : Bytes → Except String (DecodedBody AdmissionReview))
    (decodeObject : Bytes → Except String Object)
    (marshal : Object → Except String Bytes)
    (createPatch : Bytes → Bytes → Except String (List Operation))
    (marshalOps : List Operation → Except String Bytes)
    (body : Bytes) (review : AdmissionReview) (gvk : String) (request : AdmissionRequest)
    (hbody : decodeBody body = .ok (.review review gvk))
    (hreq : review.Request = some request) :
    (∀ p : v1alpha1.Pizza, decodeIfNil decodeObject request.Object = .ok (.alpha p) →
      ∃ q : v1alpha1.Pizza,
        (p.Spec.Toppings = [] →
          q = { p with Spec := { Toppings := ["tomato", "mozzarella", "salami"] } }) ∧
        (p.Spec.Toppings ≠ [] → q = p) ∧
        (∀ e, marshal (.alpha q) = .error e →
          ServePizzaAdmit decodeBody decodeObject marshal createPatch marshalOps (.ok body)
            = .internalError ("unexpected encoding error: " ++ e)) ∧
        (∀ bs ops patch, marshal (.alpha q) = .ok bs →
          createPatch request.Object.Raw bs = .ok ops → marshalOps ops = .ok patch →
          ServePizzaAdmit decodeBody decodeObject marshal createPatch marshalOps (.ok body)
            = .object ⟨review.Request,
                some ⟨request.UID, true, none, patch, some PatchTypeJSONPatch⟩⟩ gvk) ∧
        (∀ body2 review2 gvk2 request2,
          decodeBody body2 = .ok (.review review2 gvk2) → review2.Request = some request2 →
          decodeIfNil decodeObject request2.Object = .ok (.alpha q) →
          (∀ e, marshal (.alpha q) = .error e →
            ServePizzaAdmit decodeBody decodeObject marshal createPatch marshalOps (.ok body2)
              = .internalError ("unexpected encoding error: " ++ e)) ∧
          (∀ bs ops patch, marshal (.alpha q) = .ok bs →
            createPatch request2.Object.Raw bs = .ok ops → marshalOps ops = .ok patch →
            ServePizzaAdmit decodeBody decodeObject marshal createPatch marshalOps (.ok body2)
              = .object ⟨review2.Request,
                  some ⟨request2.UID, true, none, patch, some PatchTypeJSONPatch⟩⟩ gvk2))) ∧
    (∀ p : v1beta1.Pizza, decodeIfNil decodeObject request.Object = .ok (.beta p) →
      ∃ q : v1beta1.Pizza,
        (p.Spec.Toppings = [] →
          q = { p with Spec := { Toppings :=
            [⟨"tomato", 1⟩, ⟨"mozzarella", 1⟩, ⟨"salami", 1⟩] } }) ∧
        (p.Spec.Toppings ≠ [] → q = p) ∧
        (∀ e, marshal (.beta q) = .error e →
          ServePizzaAdmit decodeBody decodeObject marshal createPatch marshalOps (.ok body)
            = .internalError ("unexpected encoding error: " ++ e)) ∧
        (∀ bs ops patch, marshal (.beta q) = .ok bs →
          createPatch request.Object.Raw bs = .ok ops → marshalOps ops = .ok patch →
          ServePizzaAdmit decodeBody decodeObject marshal createPatch marshalOps (.ok body)
            = .object ⟨review.Request,
                some ⟨request.UID, true, none, patch, some PatchTypeJSONPatch⟩⟩ gvk) ∧
        (∀ body2 review2 gvk2 request2,
          decodeBody body2 = .ok (.review review2 gvk2) → review2.Request = some request2 →
          decodeIfNil decodeObject request2.Object = .ok (.beta q) →
          (∀ e, marshal (.beta q) = .error e →
            ServePizzaAdmit decodeBody decodeObject marshal createPatch marshalOps (.ok body2)
              = .internalError ("unexpected encoding error: " ++ e)) ∧
          (∀ bs ops patch, marshal (.beta q) = .ok bs →
            createPatch request2.Object.Raw bs = .ok ops → marshalOps ops = .ok patch →
            ServePizzaAdmit decodeBody decodeObject marshal createPatch marshalOps (.ok body2)
              = .object ⟨review2.Request,
                  some ⟨request2.UID, true, none, patch, some PatchTypeJSONPatch⟩⟩ gvk2))) := by
  constructor
  · intro p hobj
    have h1 := ServePizzaAdmit_alpha_encodes decodeBody decodeObject marshal createPatch
      marshalOps body review gvk request p hbody hreq hobj
    refine ⟨p.defaultToppings, alpha_defaultToppings_of_empty p,
      alpha_defaultToppings_of_nonempty p, h1.1, h1.2, ?_⟩
    intro body2 review2 gvk2 request2 hbody2 hreq2 hobj2
    have h2 := ServePizzaAdmit_alpha_encodes decodeBody decodeObject marshal createPatch
      marshalOps body2 review2 gvk2 request2 p.defaultToppings hbody2 hreq2 hobj2
    rw [alpha_defaultToppings_twice] at h2
    exact h2
  · intro p hobj
    have h1 := ServePizzaAdmit_beta_encodes decodeBody decodeObject marshal createPatch
      marshalOps body review gvk request p hbody hreq hobj
    refine ⟨p.defaultToppings, beta_defaultToppings_of_empty p,
      beta_defaultToppings_of_nonempty p, h1.1, h1.2, ?_⟩
    intro body2 review2 gvk2 request2 hbody2 hreq2 hobj2
    have h2 := ServePizzaAdmit_beta_encodes decodeBody decodeObject marshal createPatch
      marshalOps body2 review2 gvk2 request2 p.defaultToppings hbody2 hreq2 hobj2
    rw [beta_defaultToppings_twice] at h2
    exact h2

/-- Witness for C9: a `v1beta1` pizza with an empty toppings list, with an
encoder that accepts only the pizza carrying the three defaults at quantity 1.
The handler answers allowed with the patch, so it encoded the defaulted pizza. -/
theorem ServePizzaAdmit_defaulting_idempotent_witness :
    ServePizzaAdmit (sampleDecodeBody (sampleAdmissionRequest (.beta (sampleBeta []))))
        (fun _ => .error "no kind") sampleMarshalDefaulted (fun _ _ => .ok sampleOps)
        (fun _ => .ok [91, 93]) (.ok [])
      = .object { Request := some (sampleAdmissionRequest (.beta (sampleBeta []))),
                  Response := some ⟨"uid-2", true, none, [91, 93], some PatchTypeJSONPatch⟩ }
          "admission.k8s.io/v1beta1, Kind=AdmissionReview" := by
  obtain ⟨q, hq, _, _, h4, _⟩ :=
    (ServePizzaAdmit_defaulting_idempotent
      (sampleDecodeBody (sampleAdmissionRequest (.beta (sampleBeta []))))
      (fun _ => .error "no kind") sampleMarshalDefaulted (fun _ _ => .ok sampleOps)
      (fun _ => .ok [91, 93]) []
      { Request := some (sampleAdmissionRequest (.beta (sampleBeta []))), Response := none }
      "admission.k8s.io/v1beta1, Kind=AdmissionReview"
      (sampleAdmissionRequest (.beta (sampleBeta []))) rfl rfl).2 (sampleBeta []) rfl
  have hq2 := hq rfl
  subst hq2
  exact h4 [123, 125] sampleOps [91, 93] rfl rfl rfl

end PizzaCRD
